import Mathlib

/-!
Shallow embedding of the BPSR gear calculator core
(`config.py`, `config_numerical.py`, `locked_gear_manager.py`,
`calculator_v2.py`) and proofs about it.

Python dictionaries keyed by statistics are modelled either as total
functions `Stat → Int` (for totals, which always carry all five
statistics) or as insertion-ordered association lists (for the
requirement map, the allocator's `needed` map and the gem/reforge spend
maps, whose *iteration order* matters to the algorithm).  Python's
unbounded integers are modelled by `Int`.  The iteration order of the
Python `set` of locked slot names is determinized to first-occurrence
order of the underlying locked-piece list; no proved statement depends
on which fixed order is chosen.
-/

/-- The five statistics (`config.ALL_STATS`). -/
inductive Stat where
  | Crit | Haste | Mastery | Versatility | Luck
deriving DecidableEq, Repr, Inhabited

/-- `config.ALL_STATS`, in source order. -/
def ALL_STATS : List Stat :=
  [.Crit, .Haste, .Mastery, .Versatility, .Luck]

/-- The ten gear slots plus the weapon slot.  The weapon is not one of
the ten gear slots, but a locked piece may name it (the calculator tests
`"Weapon" in self.locked_slots`). -/
inductive Slot where
  | Earrings | Ring | Charm | Necklace
  | Helmet | Armor | Gauntlets | Boots | BraceletL | BraceletR
  | Weapon
deriving DecidableEq, Repr, Inhabited

/-- `config.MANDATORY_SLOTS`. -/
def MANDATORY_SLOTS : List Slot := [.Earrings, .Ring, .Charm, .Necklace]

/-- `config.OPTIONAL_SLOTS`. -/
def OPTIONAL_SLOTS : List Slot :=
  [.Helmet, .Armor, .Gauntlets, .Boots, .BraceletL, .BraceletR]

/-- `config.ALL_GEAR_SLOTS`. -/
def ALL_GEAR_SLOTS : List Slot := MANDATORY_SLOTS ++ OPTIONAL_SLOTS

/-- `config.UNIQUE_ALLOWED_SLOTS` (the variant in `config.py`, which is
the one the calculator uses). -/
def UNIQUE_ALLOWED_SLOTS : List Slot :=
  [.Helmet, .Armor, .Gauntlets, .Boots, .BraceletL, .BraceletR]

/-- The three class attributes. -/
inductive Attr where
  | Strength | Agility | Intellect
deriving DecidableEq, Repr

/-- The eight character classes. -/
inductive CClass where
  | ShieldKnight | WindKnight | HeavyGuardian | Stormblade
  | Marksman | FrostMage | VerdantOracle | BeatPerformer
deriving DecidableEq, Repr

/-- The sixteen subclasses. -/
inductive Subclass where
  | Iaido | Moonstrike | Icicle | FrostBeam | Skyward | Vanguard
  | Smite | Lifebind | Block | Earthfort | Falconry | Wildpack
  | Shield | Recovery | Dissonance | Concerto
deriving DecidableEq, Repr

/-- `config.CLASS_ATTRIBUTES`. -/
def CLASS_ATTRIBUTES : CClass → Attr
  | .ShieldKnight => .Strength
  | .WindKnight => .Strength
  | .HeavyGuardian => .Strength
  | .Stormblade => .Agility
  | .Marksman => .Agility
  | .FrostMage => .Intellect
  | .VerdantOracle => .Intellect
  | .BeatPerformer => .Intellect

/-- `config.SUBCLASSES`. -/
def SUBCLASSES : CClass → List Subclass
  | .Stormblade => [.Iaido, .Moonstrike]
  | .FrostMage => [.Icicle, .FrostBeam]
  | .WindKnight => [.Skyward, .Vanguard]
  | .VerdantOracle => [.Smite, .Lifebind]
  | .HeavyGuardian => [.Block, .Earthfort]
  | .Marksman => [.Falconry, .Wildpack]
  | .ShieldKnight => [.Shield, .Recovery]
  | .BeatPerformer => [.Dissonance, .Concerto]

/-- `config.validate_class_subclass`. -/
def validate_class_subclass (c : CClass) (s : Subclass) : Bool :=
  s ∈ SUBCLASSES c

/-- The per-subclass unique statistic pair.  `config.SUBCLASS_UNIQUE_STATS`
and the nested table in `config_numerical.py` agree entry by entry;
`config_numerical.get_unique_stats(class, subclass)` returns exactly this
pair for every valid class/subclass combination. -/
def SUBCLASS_UNIQUE_STATS : Subclass → Stat × Stat
  | .Iaido => (.Crit, .Mastery)
  | .Moonstrike => (.Luck, .Haste)
  | .Icicle => (.Crit, .Luck)
  | .FrostBeam => (.Haste, .Mastery)
  | .Skyward => (.Crit, .Luck)
  | .Vanguard => (.Haste, .Mastery)
  | .Smite => (.Mastery, .Luck)
  | .Lifebind => (.Mastery, .Haste)
  | .Block => (.Mastery, .Luck)
  | .Earthfort => (.Mastery, .Versatility)
  | .Falconry => (.Crit, .Haste)
  | .Wildpack => (.Haste, .Mastery)
  | .Shield => (.Haste, .Mastery)
  | .Recovery => (.Crit, .Mastery)
  | .Dissonance => (.Haste, .Luck)
  | .Concerto => (.Crit, .Haste)

/-- `config.FORBIDDEN_STATS`, as `config.get_forbidden_stat`:
the single forbidden statistic for a slot/attribute pair, if any
(the weapon slot has none). -/
def get_forbidden_stat (slot : Slot) (a : Attr) : Option Stat :=
  match a, slot with
  | .Agility, .Helmet => some .Haste
  | .Agility, .Armor => some .Mastery
  | .Agility, .Gauntlets => some .Crit
  | .Agility, .Boots => some .Crit
  | .Agility, .Earrings => some .Haste
  | .Agility, .Necklace => some .Mastery
  | .Agility, .Ring => some .Versatility
  | .Agility, .BraceletL => some .Versatility
  | .Agility, .BraceletR => some .Luck
  | .Agility, .Charm => some .Luck
  | .Intellect, .Helmet => some .Crit
  | .Intellect, .Armor => some .Crit
  | .Intellect, .Gauntlets => some .Versatility
  | .Intellect, .Boots => some .Luck
  | .Intellect, .Earrings => some .Versatility
  | .Intellect, .Necklace => some .Luck
  | .Intellect, .Ring => some .Mastery
  | .Intellect, .BraceletL => some .Haste
  | .Intellect, .BraceletR => some .Mastery
  | .Intellect, .Charm => some .Haste
  | .Strength, .Helmet => some .Versatility
  | .Strength, .Armor => some .Luck
  | .Strength, .Gauntlets => some .Haste
  | .Strength, .Boots => some .Mastery
  | .Strength, .Earrings => some .Mastery
  | .Strength, .Necklace => some .Haste
  | .Strength, .Ring => some .Luck
  | .Strength, .BraceletL => some .Crit
  | .Strength, .BraceletR => some .Crit
  | .Strength, .Charm => some .Versatility
  | _, .Weapon => none

/-- `config.get_valid_stats_for_slot`. -/
def get_valid_stats_for_slot (slot : Slot) (a : Attr) : List Stat :=
  match get_forbidden_stat slot a with
  | some f => ALL_STATS.filter (fun s => s ≠ f)
  | none => ALL_STATS

/-- Gear levels accepted by `config_numerical.get_gear_level_stats`. -/
inductive GearLevel where
  | l40 | l60 | l80
deriving DecidableEq, Repr

/-- The `primary`/`secondary`/`reforge` triple of `config_numerical.GEAR_LEVELS`. -/
structure GearLevelStats where
  primary : Int
  secondary : Int
  reforge : Int
deriving DecidableEq, Repr

/-- `config_numerical.get_gear_level_stats`. -/
def get_gear_level_stats : GearLevel → GearLevelStats
  | .l40 => ⟨100, 50, 30⟩
  | .l60 => ⟨140, 70, 42⟩
  | .l80 => ⟨200, 100, 60⟩

/-- Weapon levels accepted by `config_numerical.get_weapon_stats`. -/
inductive WeaponLevel where
  | l70 | l90
deriving DecidableEq, Repr

/-- `config_numerical.get_weapon_stats`. -/
def get_weapon_stats : WeaponLevel → Int
  | .l70 => 306
  | .l90 => 384

/-- The `gem_assumption` selector of `GearCalculator.__init__`
(`min`/`avg`/`max`; any other value falls back to 60, so three
constructors suffice). -/
inductive GemAssumption where
  | min | avg | max
deriving DecidableEq, Repr

/-- `gem_values = {'min': 50, 'avg': 60, 'max': 70}` in
`GearCalculator.__init__`. -/
def gemValueOf : GemAssumption → Int
  | .min => 50
  | .avg => 60
  | .max => 70

/-- Insertion-ordered association list standing for a Python dict
keyed by statistics. -/
abbrev StatMap := List (Stat × Int)

/-- Dict lookup (`d[s]` / `d.get(s)`), first matching key. -/
def lookupStat : StatMap → Stat → Option Int
  | [], _ => none
  | (t, v) :: rest, s => if t = s then some v else lookupStat rest s

/-- Dict update `d[s] = v`: overwrite in place if the key exists
(preserving its position, as CPython dicts do), else append. -/
def setStat : StatMap → Stat → Int → StatMap
  | [], s, v => [(s, v)]
  | (t, w) :: rest, s, v =>
      if t = s then (t, v) :: rest else (t, w) :: setStat rest s v

/-- Dict deletion `del d[s]` (removes the first matching entry; in the
source the keys are distinct, so this is exact). -/
def eraseStat : StatMap → Stat → StatMap
  | [], _ => []
  | (t, v) :: rest, s =>
      if t = s then rest else (t, v) :: eraseStat rest s

/-- `sum(d.values())`. -/
def sumValues (m : StatMap) : Int :=
  m.foldl (fun a e => a + e.2) 0

/-- Pointwise addition into a `Stat → Int` total map
(`totals[s] += v`). -/
def addStat (f : Stat → Int) (s : Stat) (v : Int) : Stat → Int :=
  fun t => if t = s then f t + v else f t

/-- A locked gear piece (`locked_gear_manager.LockedGear`). -/
structure LockedGear where
  slot : Slot
  is_unique : Bool
  main_stat : Option Stat
  sub_stat : Option Stat
  gem_stat : Option Stat
  reforge_stat : Option Stat
deriving DecidableEq, Repr

/-- Optional-stat contribution: `if self.x_stat: stats[self.x_stat] += v`. -/
def addOptStat (f : Stat → Int) (o : Option Stat) (v : Int) : Stat → Int :=
  match o with
  | none => f
  | some s => addStat f s v

/-- `LockedGear.get_stats`: per-piece stat contribution as a total map
(the Python dict starts at zero for all five statistics). -/
def LockedGear.get_stats (g : LockedGear) (gear_level : GearLevel)
    (unique_stats : Stat × Stat) (gem_value reforge_value : Int) : Stat → Int :=
  let gear_stats := get_gear_level_stats gear_level
  let base : Stat → Int := fun _ => 0
  let base :=
    if g.is_unique then
      addStat (addStat base unique_stats.1 gear_stats.primary)
        unique_stats.2 gear_stats.primary
    else
      addOptStat (addOptStat base g.main_stat gear_stats.primary)
        g.sub_stat gear_stats.secondary
  addOptStat (addOptStat base g.gem_stat gem_value) g.reforge_stat reforge_value

/-- Result message of `LockedGearManager.add_gear` (the Python strings
`"... is already locked ..."`, `"Cannot lock more than 10 gear pieces"`,
`"Added ..."`). -/
inductive AddMsg where
  | alreadyLocked (s : Slot)
  | capacityExceeded
  | added (s : Slot)
deriving DecidableEq, Repr

/-- `LockedGearManager.add_gear`: returns the `(success, message)` pair
and the (possibly unchanged) piece list. -/
def add_gear (pieces : List LockedGear) (g : LockedGear) :
    (Bool × AddMsg) × List LockedGear :=
  if pieces.any (fun p => p.slot = g.slot) then
    ((false, .alreadyLocked g.slot), pieces)
  else if 10 ≤ pieces.length then
    ((false, .capacityExceeded), pieces)
  else
    ((true, .added g.slot), pieces ++ [g])

/-- `LockedGearManager.get_locked_slots`. -/
def get_locked_slots (pieces : List LockedGear) : List Slot :=
  pieces.map (·.slot)

/-- `LockedGearManager.get_total_stats`. -/
def get_total_stats (pieces : List LockedGear) (gear_level : GearLevel)
    (unique_stats : Stat × Stat) (gem_value : Int) : Stat → Int :=
  let reforge_value := (get_gear_level_stats gear_level).reforge
  pieces.foldl
    (fun totals p => fun s =>
      totals s + p.get_stats gear_level unique_stats gem_value reforge_value s)
    (fun _ => 0)

/-- Gems consumed by locked pieces
(first component of `LockedGearManager.get_resource_usage`). -/
def gemsUsed (pieces : List LockedGear) : Int :=
  (pieces.filter (fun p => p.gem_stat.isSome)).length

/-- Reforges consumed by locked pieces
(second component of `LockedGearManager.get_resource_usage`). -/
def reforgesUsed (pieces : List LockedGear) : Int :=
  (pieces.filter (fun p => p.reforge_stat.isSome)).length

/-- `LockedGearManager.get_available_resources`. -/
def get_available_resources (pieces : List LockedGear) : Int × Int :=
  (11 - gemsUsed pieces, 11 - reforgesUsed pieces)

/-- Helper for `firstDedup`: drop elements already seen. -/
def firstDedupAux : List Slot → List Slot → List Slot
  | _, [] => []
  | seen, s :: rest =>
      if s ∈ seen then firstDedupAux seen rest
      else s :: firstDedupAux (s :: seen) rest

/-- First-occurrence deduplication, determinizing the iteration order of
the Python `set(locked_slots)`. -/
def firstDedup (l : List Slot) : List Slot := firstDedupAux [] l

/-- The state of a `GearCalculator` after `__init__`
(only the fields the calculation methods read). -/
structure Calc where
  attr : Attr
  primary_value : Int
  secondary_value : Int
  reforge_value : Int
  weapon_stat_value : Int
  unique_stats : Stat × Stat
  gem_value : Int
  min_stats : StatMap
  has_locked_gear : Bool
  locked_stats : Stat → Int
  locked_slots : List Slot
  total_gems : Int
  total_reforges : Int
  slots_to_fill : Int
  unique_count : Nat

/-- The body of `GearCalculator.__init__` after its class/subclass
validation succeeded. -/
def mkCalcCore (class_name : CClass) (subclass_name : Subclass)
    (gear_level : GearLevel) (weapon_level : WeaponLevel)
    (unique_count : Nat) (gem_assumption : GemAssumption)
    (min_stats : StatMap) (locked : Option (List LockedGear)) : Calc :=
  let a := CLASS_ATTRIBUTES class_name
  let gear_stats := get_gear_level_stats gear_level
  let w := get_weapon_stats weapon_level
  let us := SUBCLASS_UNIQUE_STATS subclass_name
  let gv := gemValueOf gem_assumption
  -- `self.has_locked_gear = locked_gear_manager is not None and locked_gear_manager.count() > 0`
  let noLockedCalc : Calc :=
    { attr := a
      primary_value := gear_stats.primary
      secondary_value := gear_stats.secondary
      reforge_value := gear_stats.reforge
      weapon_stat_value := w
      unique_stats := us
      gem_value := gv
      min_stats := min_stats
      has_locked_gear := false
      locked_stats := fun _ => 0
      locked_slots := []
      total_gems := 11
      total_reforges := 11
      slots_to_fill := 10
      unique_count := unique_count }
  match locked with
  | some pieces =>
    if 0 < pieces.length then
      let lslots := firstDedup (get_locked_slots pieces)
      let avail_unique := UNIQUE_ALLOWED_SLOTS.filter (fun s => s ∉ lslots)
      { attr := a
        primary_value := gear_stats.primary
        secondary_value := gear_stats.secondary
        reforge_value := gear_stats.reforge
        weapon_stat_value := w
        unique_stats := us
        gem_value := gv
        min_stats := min_stats
        has_locked_gear := true
        locked_stats := get_total_stats pieces gear_level us gv
        locked_slots := lslots
        total_gems := (get_available_resources pieces).1
        total_reforges := (get_available_resources pieces).2
        slots_to_fill := 10 - lslots.length
        unique_count := Nat.min unique_count avail_unique.length }
    else noLockedCalc
  | none => noLockedCalc

/-- `GearCalculator.__init__` including its validation step: an invalid
class/subclass pairing raises `ValueError`, modelled as `none`. -/
def mkCalculator (class_name : CClass) (subclass_name : Subclass)
    (gear_level : GearLevel) (weapon_level : WeaponLevel)
    (unique_count : Nat) (gem_assumption : GemAssumption)
    (min_stats : StatMap) (locked : Option (List LockedGear)) : Option Calc :=
  if validate_class_subclass class_name subclass_name then
    some (mkCalcCore class_name subclass_name gear_level weapon_level
      unique_count gem_assumption min_stats locked)
  else
    none

/-- `itertools.combinations` in its enumeration order (lexicographic by
input position). -/
def combinations : List Slot → Nat → List (List Slot)
  | _, 0 => [[]]
  | [], _ + 1 => []
  | x :: xs, n + 1 =>
      (combinations xs n).map (fun c => x :: c) ++ combinations xs (n + 1)

/-- The unlocked mandatory slots
(`available_mandatory` in `get_optional_slot_combinations`). -/
def availableMandatory (ctx : Calc) : List Slot :=
  MANDATORY_SLOTS.filter (fun s => s ∉ ctx.locked_slots)

/-- The unlocked optional slots
(`available_optional` in `get_optional_slot_combinations`). -/
def availableOptional (ctx : Calc) : List Slot :=
  OPTIONAL_SLOTS.filter (fun s => s ∉ ctx.locked_slots)

/-- `GearCalculator.get_optional_slot_combinations`. -/
def get_optional_slot_combinations (ctx : Calc) : List (List Slot) :=
  let available_optional := availableOptional ctx
  let available_mandatory := availableMandatory ctx
  let slots_needed : Int := ctx.slots_to_fill
  let mandatory_count : Int := available_mandatory.length
  let optional_needed := slots_needed - mandatory_count
  -- `if optional_needed < 0: optional_needed = 0`
  let optional_needed := if optional_needed < 0 then 0 else optional_needed
  if optional_needed > (available_optional.length : Int) then []
  else if optional_needed = 0 then [available_mandatory]
  else
    (combinations available_optional optional_needed.toNat).map
      (fun opt => available_mandatory ++ opt)

/-- `GearCalculator.get_unique_slot_assignments`. -/
def get_unique_slot_assignments (ctx : Calc) (slots : List Slot) :
    List (List Slot) :=
  let valid_unique_slots := slots.filter (fun s => s ∈ UNIQUE_ALLOWED_SLOTS)
  if ctx.unique_count = 0 then [[]]
  else if valid_unique_slots.length < ctx.unique_count then []
  else combinations valid_unique_slots ctx.unique_count

/-- One slot's assignment: `(stat1, stat2, is_unique)`. -/
abbrev GearEntry := Stat × Stat × Bool

/-- A full gear assignment, in slot order (the Python generator fills the
dict keys in slot order, so insertion order equals slot order). -/
abbrev GearAssignment := List (Slot × GearEntry)

/-- The ordered `(main, sub)` pairs tried for a regular slot: main varies
in the outer loop, sub in the inner, `main != sub`. -/
def regularPairs (ctx : Calc) (slot : Slot) : List (Stat × Stat) :=
  let valid_stats := get_valid_stats_for_slot slot ctx.attr
  valid_stats.flatMap (fun m =>
    valid_stats.filterMap (fun s => if m = s then none else some (m, s)))

/-- `GearCalculator.enumerate_gear_stats`, as the list of assignments it
yields, in yield order. -/
def enumerate_gear_stats (ctx : Calc) :
    List Slot → List Slot → List GearAssignment
  | [], _ => [[]]
  | slot :: rest, unique_slots =>
      let tails := enumerate_gear_stats ctx rest unique_slots
      if slot ∈ unique_slots then
        tails.map (fun t => (slot, (ctx.unique_stats.1, ctx.unique_stats.2, true)) :: t)
      else
        (regularPairs ctx slot).flatMap (fun p =>
          tails.map (fun t => (slot, (p.1, p.2, false)) :: t))

/-- One gear piece's contribution inside `calculate_gear_totals`. -/
def gearEntryAdd (ctx : Calc) (f : Stat → Int) (e : Slot × GearEntry) :
    Stat → Int :=
  let (stat1, stat2, is_unique) := e.2
  if is_unique then
    addStat (addStat f stat1 ctx.primary_value) stat2 ctx.primary_value
  else
    addStat (addStat f stat1 ctx.primary_value) stat2 ctx.secondary_value

/-- `GearCalculator.calculate_gear_totals`. -/
def calculate_gear_totals (ctx : Calc) (gear_assignment : GearAssignment) :
    Stat → Int :=
  -- totals start at zero and first absorb the locked-gear stats
  let base : Stat → Int := fun s => 0 + ctx.locked_stats s
  -- `if "Weapon" not in self.locked_slots`
  let base :=
    if Slot.Weapon ∈ ctx.locked_slots then base
    else
      addStat (addStat base ctx.unique_stats.1 ctx.weapon_stat_value)
        ctx.unique_stats.2 ctx.weapon_stat_value
  gear_assignment.foldl (gearEntryAdd ctx) base

/-- The `needed` dict: deficits of requirements not met by gear alone,
in requirement-map order. -/
def buildNeeded (min_stats : StatMap) (gear_totals : Stat → Int) : StatMap :=
  min_stats.filterMap (fun e =>
    if gear_totals e.1 < e.2 then some (e.1, e.2 - gear_totals e.1) else none)

/-- Stable descending insertion (by second component): the new element
goes after every element with a greater-or-equal key, matching Python's
stable `sorted(..., reverse=True)`. -/
def insertByDesc (x : Stat × Int) : StatMap → StatMap
  | [] => [x]
  | y :: ys => if x.2 ≤ y.2 then y :: insertByDesc x ys else x :: y :: ys

/-- Stable sort of an association list, descending by value. -/
def sortDescSnd (l : StatMap) : StatMap :=
  l.foldl (fun acc x => insertByDesc x acc) []

/-- `sorted(needed.keys(), key=lambda s: needed[s], reverse=True)`. -/
def sortedKeysDesc (l : StatMap) : List Stat :=
  (sortDescSnd l).map Prod.fst

/-- Mutable state of one greedy allocation phase: the remaining `needed`
dict, the spend dict built so far, and the remaining pool. -/
structure PhaseState where
  needed : StatMap
  counts : StatMap
  remaining : Int
deriving Repr

/-- One iteration of a phase loop body in `assign_gems_and_reforges`
(shared shape of the gem and reforge phases, `unit` being the gem value
or the reforge value).  The key is always present in `needed` when the
source runs this (keys are iterated from a snapshot and are distinct);
the `none` branch merely totalizes the function. -/
def phaseStep (unit : Int) (st : PhaseState) (stat : Stat) : PhaseState :=
  match lookupStat st.needed stat with
  | none => st
  | some d =>
      let units_needed := Int.fdiv (d + unit - 1) unit
      let to_use := min units_needed st.remaining
      if 0 < to_use then
        let d' := d - to_use * unit
        { needed := if d' ≤ 0 then eraseStat st.needed stat
                    else setStat st.needed stat d'
          counts := st.counts ++ [(stat, to_use)]
          remaining := st.remaining - to_use }
      else st

/-- A whole phase loop (`for stat in sorted(...)`). -/
def runPhase (unit : Int) (st : PhaseState) (order : List Stat) : PhaseState :=
  order.foldl (phaseStep unit) st

/-- `final_totals[stat] = final_totals.get(stat, 0) + count * value`
folded over a spend dict. -/
def applyCounts (totals : Stat → Int) (counts : StatMap) (unit : Int) :
    Stat → Int :=
  counts.foldl (fun f e => addStat f e.1 (e.2 * unit)) totals

/-- The tuple returned by a successful `assign_gems_and_reforges`. -/
structure AllocResult where
  gem_counts : StatMap
  reforge_counts : StatMap
  final_totals : Stat → Int
  meets_requirements : Bool
deriving Inhabited

/-- `GearCalculator.assign_gems_and_reforges` (`None` becomes `none`). -/
def assign_gems_and_reforges (ctx : Calc) (gear_totals : Stat → Int) :
    Option AllocResult :=
  let needed := buildNeeded ctx.min_stats gear_totals
  if needed.isEmpty then
    -- `return ({}, {}, gear_totals.copy(), True)`
    some ⟨[], [], gear_totals, true⟩
  else
    let st1 := runPhase ctx.gem_value
      ⟨needed, [], ctx.total_gems⟩ (sortedKeysDesc needed)
    let st2 := runPhase ctx.reforge_value
      ⟨st1.needed, [], ctx.total_reforges⟩ (sortedKeysDesc st1.needed)
    if st2.needed.isEmpty then
      let final_totals :=
        applyCounts (applyCounts gear_totals st1.counts ctx.gem_value)
          st2.counts ctx.reforge_value
      let meets := ctx.min_stats.all (fun e => decide (e.2 ≤ final_totals e.1))
      some ⟨st1.counts, st2.counts, final_totals, meets⟩
    else none

/-- One solution record as built in `GearCalculator.calculate` /
`_validate_fully_locked_build`. -/
structure Solution where
  slots : List Slot
  unique_slots : List Slot
  gear_assignment : GearAssignment
  gem_counts : StatMap
  reforge_counts : StatMap
  final_totals : Stat → Int
  gear_totals : Stat → Int
  has_locked_gear : Bool
  fully_locked : Bool
deriving Inhabited

/-- A candidate of the nested enumeration:
(slot combination, unique slots, gear assignment). -/
abbrev Candidate := List Slot × List Slot × GearAssignment

/-- The loop body of `calculate` for one candidate: compute totals, run
the allocator, and keep the candidate only `if result and result[3]`. -/
def tryCandidate (ctx : Calc) (c : Candidate) : Option Solution :=
  let gear_totals := calculate_gear_totals ctx c.2.2
  match assign_gems_and_reforges ctx gear_totals with
  | none => none
  | some r =>
      if r.meets_requirements then
        some
          { slots := ctx.locked_slots ++ c.1
            unique_slots := c.2.1
            gear_assignment := c.2.2
            gem_counts := r.gem_counts
            reforge_counts := r.reforge_counts
            final_totals := r.final_totals
            gear_totals := gear_totals
            has_locked_gear := ctx.has_locked_gear
            fully_locked := false }
      else none

/-- The candidate stream of `calculate`'s three nested loops, flattened
in exact visit order. -/
def candidates (ctx : Calc) : List Candidate :=
  (get_optional_slot_combinations ctx).flatMap (fun slot_combo =>
    (get_unique_slot_assignments ctx slot_combo).flatMap (fun unique_slots =>
      (enumerate_gear_stats ctx slot_combo unique_slots).map
        (fun ga => (slot_combo, unique_slots, ga))))

/-- `if max_solutions and solutions_found >= max_solutions` (Python
truthiness: a cap of `0` behaves like no cap). -/
def capReached (cap : Option Nat) (found : Nat) : Bool :=
  match cap with
  | none => false
  | some n => n ≠ 0 && n ≤ found

/-- The enumeration loop of `calculate` with its early exit. -/
def calcLoop (ctx : Calc) (cap : Option Nat) (found : Nat)
    (acc : List Solution) : List Candidate → List Solution
  | [] => acc
  | c :: cs =>
      match tryCandidate ctx c with
      | none => calcLoop ctx cap found acc cs
      | some sol =>
          if capReached cap (found + 1) then acc ++ [sol]
          else calcLoop ctx cap (found + 1) (acc ++ [sol]) cs

/-- `GearCalculator._validate_fully_locked_build`. -/
def validate_fully_locked_build (ctx : Calc) : List Solution :=
  let gear_totals := ctx.locked_stats
  match assign_gems_and_reforges ctx gear_totals with
  | none => []
  | some r =>
      if r.meets_requirements then
        [{ slots := ctx.locked_slots
           unique_slots := []
           gear_assignment := []
           gem_counts := r.gem_counts
           reforge_counts := r.reforge_counts
           final_totals := r.final_totals
           gear_totals := gear_totals
           has_locked_gear := true
           fully_locked := true }]
      else []

/-- `GearCalculator.calculate`. -/
def calculate (ctx : Calc) (max_solutions : Option Nat) : List Solution :=
  if ctx.has_locked_gear ∧ 10 ≤ ctx.locked_slots.length then
    validate_fully_locked_build ctx
  else
    let slot_combinations := get_optional_slot_combinations ctx
    if slot_combinations.isEmpty then []
    else calcLoop ctx max_solutions 0 [] (candidates ctx)

/-! ### Association-list (dict) lemmas -/

theorem lookupStat_eq_none_iff (m : StatMap) (s : Stat) :
    lookupStat m s = none ↔ s ∉ m.map Prod.fst := by
  induction m with
  | nil => simp [lookupStat]
  | cons e rest ih =>
    obtain ⟨t, v⟩ := e
    by_cases h : t = s <;> simp [lookupStat, h, ih, Ne.symm]

theorem mem_of_lookupStat (m : StatMap) (s : Stat) (v : Int)
    (h : lookupStat m s = some v) : (s, v) ∈ m := by
  induction m with
  | nil => simp [lookupStat] at h
  | cons e rest ih =>
    obtain ⟨t, w⟩ := e
    by_cases ht : t = s
    · subst ht
      simp [lookupStat] at h
      simp [h]
    · simp [lookupStat, ht] at h
      exact List.mem_cons_of_mem _ (ih h)

theorem lookupStat_of_mem (m : StatMap) (s : Stat) (v : Int)
    (hnd : (m.map Prod.fst).Nodup) (h : (s, v) ∈ m) :
    lookupStat m s = some v := by
  induction m with
  | nil => simp at h
  | cons e rest ih =>
    obtain ⟨t, w⟩ := e
    simp only [List.map_cons, List.nodup_cons] at hnd
    rcases List.mem_cons.mp h with h1 | h1
    · cases h1
      simp [lookupStat]
    · have hts : t ≠ s := by
        rintro rfl
        exact hnd.1 (List.mem_map_of_mem Prod.fst h1)
      simp [lookupStat, hts, ih hnd.2 h1]

theorem lookupStat_append (m m' : StatMap) (s : Stat) :
    lookupStat (m ++ m') s =
      (match lookupStat m s with
       | some v => some v
       | none => lookupStat m' s) := by
  induction m with
  | nil => simp [lookupStat]
  | cons e rest ih =>
    obtain ⟨t, v⟩ := e
    by_cases h : t = s <;> simp [lookupStat, h, ih]

theorem lookupStat_eraseStat_ne (m : StatMap) (s t : Stat) (h : t ≠ s) :
    lookupStat (eraseStat m s) t = lookupStat m t := by
  induction m with
  | nil => rfl
  | cons e rest ih =>
    obtain ⟨u, v⟩ := e
    by_cases hu : u = s
    · subst hu
      have hut : ¬u = t := fun hh => h hh.symm
      simp [eraseStat, lookupStat, hut]
    · by_cases hut : u = t
      · subst hut
        simp [eraseStat, lookupStat, hu]
      · simp [eraseStat, lookupStat, hu, hut, ih]

theorem lookupStat_eraseStat_self (m : StatMap) (s : Stat)
    (hnd : (m.map Prod.fst).Nodup) :
    lookupStat (eraseStat m s) s = none := by
  induction m with
  | nil => simp [eraseStat, lookupStat]
  | cons e rest ih =>
    obtain ⟨u, v⟩ := e
    simp only [List.map_cons, List.nodup_cons] at hnd
    by_cases hu : u = s
    · subst hu
      rw [eraseStat, if_pos rfl, lookupStat_eq_none_iff]
      exact hnd.1
    · simp [eraseStat, lookupStat, hu, ih hnd.2]

theorem eraseStat_sublist (m : StatMap) (s : Stat) :
    (eraseStat m s).Sublist m := by
  induction m with
  | nil => simp [eraseStat]
  | cons e rest ih =>
    obtain ⟨u, v⟩ := e
    by_cases hu : u = s
    · simp only [eraseStat, if_pos hu]
      exact (List.sublist_cons_self _ _)
    · simp only [eraseStat, if_neg hu]
      exact ih.cons₂ _

theorem eraseStat_keys_nodup (m : StatMap) (s : Stat)
    (hnd : (m.map Prod.fst).Nodup) :
    ((eraseStat m s).map Prod.fst).Nodup :=
  ((eraseStat_sublist m s).map Prod.fst).nodup hnd

theorem lookupStat_setStat_ne (m : StatMap) (s t : Stat) (v : Int) (h : t ≠ s) :
    lookupStat (setStat m s v) t = lookupStat m t := by
  induction m with
  | nil =>
    have hst : ¬s = t := fun hh => h hh.symm
    simp [setStat, lookupStat, hst]
  | cons e rest ih =>
    obtain ⟨u, w⟩ := e
    by_cases hu : u = s
    · subst hu
      have hut : ¬u = t := fun hh => h hh.symm
      simp [setStat, lookupStat, hut]
    · by_cases hut : u = t
      · subst hut
        simp [setStat, lookupStat, hu]
      · simp [setStat, lookupStat, hu, hut, ih]

theorem lookupStat_setStat_self (m : StatMap) (s : Stat) (v : Int) :
    lookupStat (setStat m s v) s = some v := by
  induction m with
  | nil => simp [setStat, lookupStat]
  | cons e rest ih =>
    obtain ⟨u, w⟩ := e
    by_cases hu : u = s <;> simp [setStat, lookupStat, hu, ih]

theorem setStat_keys_mem (m : StatMap) (s t : Stat) (v : Int)
    (h : t ∈ (setStat m s v).map Prod.fst) :
    t ∈ m.map Prod.fst ∨ t = s := by
  induction m with
  | nil =>
    simp [setStat] at h
    exact Or.inr h
  | cons e rest ih =>
    obtain ⟨u, w⟩ := e
    by_cases hu : u = s
    · simp only [setStat, if_pos hu, List.map_cons, List.mem_cons] at h ⊢
      tauto
    · simp only [setStat, if_neg hu, List.map_cons, List.mem_cons] at h ⊢
      rcases h with h | h
      · exact Or.inl (Or.inl h)
      · rcases ih h with h1 | h1
        · exact Or.inl (Or.inr h1)
        · exact Or.inr h1

theorem setStat_keys_nodup (m : StatMap) (s : Stat) (v : Int)
    (hnd : (m.map Prod.fst).Nodup) :
    ((setStat m s v).map Prod.fst).Nodup := by
  induction m with
  | nil => simp [setStat]
  | cons e rest ih =>
    obtain ⟨u, w⟩ := e
    simp only [List.map_cons, List.nodup_cons] at hnd
    by_cases hu : u = s
    · subst hu
      simpa [setStat] using hnd
    · simp only [setStat, if_neg hu, List.map_cons, List.nodup_cons]
      refine ⟨fun hmem => ?_, ih hnd.2⟩
      rcases setStat_keys_mem rest s u v hmem with h1 | h1
      · exact hnd.1 h1
      · exact hu h1

theorem sumValues_append_single (m : StatMap) (s : Stat) (c : Int) :
    sumValues (m ++ [(s, c)]) = sumValues m + c := by
  simp [sumValues, List.foldl_append]

theorem sumValues_nil : sumValues [] = 0 := rfl


/-! ### Solver loop lemmas -/

theorem mem_calcLoop (ctx : Calc) (cap : Option Nat) :
    ∀ (cs : List Candidate) (found : Nat) (acc : List Solution) (sol : Solution),
      sol ∈ calcLoop ctx cap found acc cs →
      sol ∈ acc ∨ ∃ c ∈ cs, tryCandidate ctx c = some sol := by
  intro cs
  induction cs with
  | nil =>
    intro found acc sol h
    exact Or.inl h
  | cons c rest ih =>
    intro found acc sol h
    simp only [calcLoop] at h
    split at h
    · -- tryCandidate ctx c = none
      rcases ih _ _ _ h with h1 | ⟨c', hc', h2⟩
      · exact Or.inl h1
      · exact Or.inr ⟨c', List.mem_cons_of_mem _ hc', h2⟩
    · -- tryCandidate ctx c = some s
      rename_i s htc
      split at h
      · rcases List.mem_append.mp h with h1 | h1
        · exact Or.inl h1
        · rw [List.mem_singleton] at h1
          subst h1
          exact Or.inr ⟨c, List.mem_cons_self _ _, htc⟩
      · rcases ih _ _ _ h with h1 | ⟨c', hc', h2⟩
        · rcases List.mem_append.mp h1 with h2 | h2
          · exact Or.inl h2
          · rw [List.mem_singleton] at h2
            subst h2
            exact Or.inr ⟨c, List.mem_cons_self _ _, htc⟩
        · exact Or.inr ⟨c', List.mem_cons_of_mem _ hc', h2⟩

theorem mem_tryCandidate (ctx : Calc) (c : Candidate) (sol : Solution)
    (h : tryCandidate ctx c = some sol) :
    ∃ r, assign_gems_and_reforges ctx sol.gear_totals = some r ∧
      r.meets_requirements = true ∧
      sol.gem_counts = r.gem_counts ∧ sol.reforge_counts = r.reforge_counts ∧
      sol.final_totals = r.final_totals := by
  simp only [tryCandidate] at h
  split at h
  · exact absurd h (by simp)
  · rename_i r ha
    split at h
    · rename_i hm
      rw [Option.some.injEq] at h
      subst h
      exact ⟨r, ha, hm, rfl, rfl, rfl⟩
    · exact absurd h (by simp)

theorem mem_validate_fully_locked (ctx : Calc) (sol : Solution)
    (h : sol ∈ validate_fully_locked_build ctx) :
    ∃ r, assign_gems_and_reforges ctx sol.gear_totals = some r ∧
      r.meets_requirements = true ∧
      sol.gem_counts = r.gem_counts ∧ sol.reforge_counts = r.reforge_counts ∧
      sol.final_totals = r.final_totals := by
  simp only [validate_fully_locked_build] at h
  split at h
  · exact absurd h (by simp)
  · rename_i r ha
    split at h
    · rename_i hm
      rw [List.mem_singleton] at h
      subst h
      exact ⟨r, ha, hm, rfl, rfl, rfl⟩
    · exact absurd h (by simp)

/-- Every returned solution carries the output of a successful allocator
run whose meets-requirements flag is true. -/
theorem solution_origin (ctx : Calc) (cap : Option Nat) (sol : Solution)
    (h : sol ∈ calculate ctx cap) :
    ∃ r, assign_gems_and_reforges ctx sol.gear_totals = some r ∧
      r.meets_requirements = true ∧
      sol.gem_counts = r.gem_counts ∧ sol.reforge_counts = r.reforge_counts ∧
      sol.final_totals = r.final_totals := by
  simp only [calculate] at h
  split at h
  · exact mem_validate_fully_locked ctx sol h
  · split at h
    · exact absurd h (by simp)
    · rcases mem_calcLoop ctx cap _ _ _ _ h with h1 | ⟨c, _, h2⟩
      · exact absurd h1 (by simp)
      · exact mem_tryCandidate ctx c sol h2

/-- Solutions of a not-fully-locked solve come from the candidate stream. -/
theorem solution_origin_candidate (ctx : Calc) (cap : Option Nat) (sol : Solution)
    (hnl : ¬(ctx.has_locked_gear = true ∧ 10 ≤ ctx.locked_slots.length))
    (h : sol ∈ calculate ctx cap) :
    ∃ c ∈ candidates ctx, tryCandidate ctx c = some sol := by
  simp only [calculate] at h
  split at h
  · exact absurd ‹_› hnl
  · split at h
    · exact absurd h (by simp)
    · rcases mem_calcLoop ctx cap _ _ _ _ h with h1 | h1
      · exact absurd h1 (by simp)
      · exact h1

/-! ### Allocator output lemmas -/

theorem buildNeeded_nil_spec (ms : StatMap) (totals : Stat → Int)
    (h : buildNeeded ms totals = []) :
    ∀ e ∈ ms, e.2 ≤ totals e.1 := by
  induction ms with
  | nil => simp
  | cons e rest ih =>
    intro e' he'
    by_cases hlt : totals e.1 < e.2
    · rw [buildNeeded, List.filterMap_cons, if_pos hlt] at h
      exact absurd h (by simp)
    · rw [buildNeeded, List.filterMap_cons, if_neg hlt] at h
      rcases List.mem_cons.mp he' with h1 | h1
      · subst h1
        exact le_of_not_lt hlt
      · exact ih h e' h1

/-- A successful allocator result with a true flag meets every entry of
the requirement map. -/
theorem assign_meets_spec (ctx : Calc) (totals : Stat → Int) (r : AllocResult)
    (h : assign_gems_and_reforges ctx totals = some r)
    (hm : r.meets_requirements = true) :
    ∀ e ∈ ctx.min_stats, e.2 ≤ r.final_totals e.1 := by
  simp only [assign_gems_and_reforges] at h
  split at h
  · rename_i hempty
    rw [Option.some.injEq] at h
    subst h
    intro e he
    exact buildNeeded_nil_spec _ _ (List.isEmpty_iff.mp hempty) e he
  · split at h
    · rw [Option.some.injEq] at h
      subst h
      simp only at hm ⊢
      rw [List.all_eq_true] at hm
      intro e he
      simpa using hm e he
    · exact absurd h (by simp)

/-- A non-empty list contains its `headI`. -/
theorem headI_mem_of_ne_nil {α : Type} [Inhabited α] (l : List α) (h : l ≠ []) :
    l.headI ∈ l := by
  cases l with
  | nil => exact absurd rfl h
  | cons a t => exact List.mem_cons_self _ _

/-- C1: every solution returned by `GearCalculator.calculate` meets every
positive threshold of the requirement map: its final per-statistic total
is at least the threshold. -/
theorem claim_C1 (ctx : Calc) (cap : Option Nat) (sol : Solution)
    (hsol : sol ∈ calculate ctx cap) (s : Stat) (m : Int)
    (hreq : lookupStat ctx.min_stats s = some m) (hpos : 0 < m) :
    m ≤ sol.final_totals s := by
  obtain ⟨r, hr, hmeets, _, _, hft⟩ := solution_origin ctx cap sol hsol
  have h2 := assign_meets_spec ctx sol.gear_totals r hr hmeets (s, m)
    (mem_of_lookupStat _ _ _ hreq)
  rw [hft]
  exact h2

/-- A regular locked piece used by witness configurations. -/
def lockedPieceW (s : Slot) (ms ss : Stat) : LockedGear :=
  ⟨s, false, some ms, some ss, none, none⟩

/-- Ten locked pieces covering all ten gear slots, each with `Crit` main. -/
def piecesW1 : List LockedGear :=
  ALL_GEAR_SLOTS.map (fun s => lockedPieceW s .Crit .Mastery)

/-- A fully locked configuration requiring `Crit ≥ 100`. -/
def ctxW1 : Calc :=
  mkCalcCore .Stormblade .Iaido .l80 .l90 0 .avg [(Stat.Crit, 100)] (some piecesW1)

theorem claim_C1_witness :
    (100 : Int) ≤ ((calculate ctxW1 none).headI).final_totals Stat.Crit :=
  claim_C1 ctxW1 none (calculate ctxW1 none).headI
    (headI_mem_of_ne_nil _ (List.ne_nil_of_length_pos (by decide)))
    Stat.Crit 100 (by decide) (by decide)

/-- C6: `LockedGearManager.add_gear` fails (leaving the set unchanged)
with a slot-already-locked result when the slot is occupied, fails with a
capacity result when ten pieces are locked, and otherwise appends the
piece and succeeds. -/
theorem claim_C6 (pieces : List LockedGear) (g : LockedGear) :
    ((∃ p ∈ pieces, p.slot = g.slot) →
      add_gear pieces g = ((false, .alreadyLocked g.slot), pieces)) ∧
    ((¬∃ p ∈ pieces, p.slot = g.slot) → 10 ≤ pieces.length →
      add_gear pieces g = ((false, .capacityExceeded), pieces)) ∧
    ((¬∃ p ∈ pieces, p.slot = g.slot) → pieces.length < 10 →
      add_gear pieces g = ((true, .added g.slot), pieces ++ [g])) := by
  refine ⟨fun hex => ?_, fun hex hlen => ?_, fun hex hlen => ?_⟩
  · have hany : pieces.any (fun p => p.slot = g.slot) = true := by
      rw [List.any_eq_true]
      obtain ⟨p, hp, he⟩ := hex
      exact ⟨p, hp, by simpa using he⟩
    simp [add_gear, hany]
  · have hany : ¬pieces.any (fun p => p.slot = g.slot) = true := by
      rw [List.any_eq_true]
      rintro ⟨p, hp, he⟩
      exact hex ⟨p, hp, by simpa using he⟩
    simp [add_gear, hany, hlen]
  · have hany : ¬pieces.any (fun p => p.slot = g.slot) = true := by
      rw [List.any_eq_true]
      rintro ⟨p, hp, he⟩
      exact hex ⟨p, hp, by simpa using he⟩
    simp [add_gear, hany, Nat.not_le.mpr hlen]

/-- Witness pieces for C6: two pieces aimed at the same slot. -/
def pieceW6a : LockedGear := ⟨.Helmet, false, some .Crit, some .Mastery, none, none⟩

/-- Second witness piece for C6 (same slot as `pieceW6a`). -/
def pieceW6b : LockedGear := ⟨.Helmet, false, some .Haste, some .Luck, none, none⟩

theorem claim_C6_witness :
    add_gear [] pieceW6a = ((true, .added Slot.Helmet), [pieceW6a]) ∧
    add_gear [pieceW6a] pieceW6b = ((false, .alreadyLocked Slot.Helmet), [pieceW6a]) ∧
    ([pieceW6a] : List LockedGear).length = 1 :=
  ⟨(claim_C6 [] pieceW6a).2.2 (by simp) (by decide),
   (claim_C6 [pieceW6a] pieceW6b).1 ⟨pieceW6a, by simp, rfl⟩,
   rfl⟩

/-- A cap of zero never triggers the early exit, exactly like no cap. -/
theorem calcLoop_some_zero (ctx : Calc) :
    ∀ (cs : List Candidate) (found : Nat) (acc : List Solution),
      calcLoop ctx (some 0) found acc cs = calcLoop ctx none found acc cs := by
  intro cs
  induction cs with
  | nil => intro found acc; rfl
  | cons c rest ih =>
    intro found acc
    simp only [calcLoop]
    cases tryCandidate ctx c with
    | none => exact ih _ _
    | some s =>
      have h1 : capReached (some 0) (found + 1) = false := by simp [capReached]
      have h2 : capReached none (found + 1) = false := rfl
      rw [h1, h2]
      exact ih _ _

/-- C8: a solution cap of `0` is falsy in Python, so
`calculate(max_solutions=0)` runs the exhaustive enumeration and returns
exactly what `calculate(max_solutions=None)` returns. -/
theorem claim_C8 (ctx : Calc) : calculate ctx (some 0) = calculate ctx none := by
  simp only [calculate]
  split
  · rfl
  · split
    · rfl
    · exact calcLoop_some_zero ctx _ _ _

/-- C3: the solve pipeline is a pure function of the constructed
configuration: two calculators built from identical configuration values
and identical locked sets return identical solution sequences in
identical order for the same cap. -/
theorem claim_C3 (c : CClass) (sc : Subclass) (gl : GearLevel)
    (wl : WeaponLevel) (uc : Nat) (ga : GemAssumption) (ms : StatMap)
    (locked : Option (List LockedGear)) (cap : Option Nat) (ctx1 ctx2 : Calc)
    (h1 : mkCalculator c sc gl wl uc ga ms locked = some ctx1)
    (h2 : mkCalculator c sc gl wl uc ga ms locked = some ctx2) :
    calculate ctx1 cap = calculate ctx2 cap := by
  rw [h1] at h2
  injection h2 with h3
  rw [h3]

theorem claim_C3_witness :
    calculate (mkCalcCore .Stormblade .Iaido .l80 .l90 0 .avg [] none) (some 1) =
      calculate (mkCalcCore .Stormblade .Iaido .l80 .l90 0 .avg [] none) (some 1) :=
  claim_C3 .Stormblade .Iaido .l80 .l90 0 .avg [] none (some 1) _ _ rfl rfl

/-! ### Cap-as-prefix lemmas (C7, C8) -/

theorem calcLoop_none_eq (ctx : Calc) :
    ∀ (cs : List Candidate) (found : Nat) (acc : List Solution),
      calcLoop ctx none found acc cs = acc ++ cs.filterMap (tryCandidate ctx) := by
  intro cs
  induction cs with
  | nil =>
    intro found acc
    simp [calcLoop]
  | cons c rest ih =>
    intro found acc
    simp only [calcLoop, List.filterMap_cons]
    cases htc : tryCandidate ctx c with
    | none => rw [ih]
    | some s =>
      have h1 : capReached none (found + 1) = false := rfl
      rw [h1]
      simp only [Bool.false_eq_true, if_false]
      rw [ih]
      simp

theorem calcLoop_capped_eq (ctx : Calc) (n : Nat) (hn : n ≠ 0) :
    ∀ (cs : List Candidate) (found : Nat) (acc : List Solution), found < n →
      calcLoop ctx (some n) found acc cs =
        acc ++ (cs.filterMap (tryCandidate ctx)).take (n - found) := by
  intro cs
  induction cs with
  | nil =>
    intro found acc hf
    simp [calcLoop]
  | cons c rest ih =>
    intro found acc hf
    simp only [calcLoop, List.filterMap_cons]
    cases htc : tryCandidate ctx c with
    | none => rw [ih _ _ hf]
    | some s =>
      by_cases hreach : n ≤ found + 1
      · have hcap : capReached (some n) (found + 1) = true := by
          simp [capReached, hn, hreach]
        rw [hcap]
        simp only [if_true]
        have hnf : n - found = 1 := by omega
        rw [hnf, List.take_succ_cons, List.take_zero]
      · have hcap : capReached (some n) (found + 1) = false := by
          simp only [capReached, Bool.and_eq_false_iff]
          right
          simpa using hreach
        rw [hcap]
        simp only [Bool.false_eq_true, if_false]
        rw [ih _ _ (by omega)]
        have hnf : n - found = (n - (found + 1)) + 1 := by omega
        rw [hnf, List.take_succ_cons]
        simp

theorem validate_fully_locked_take (ctx : Calc) (n : Nat) (hn : 0 < n) :
    validate_fully_locked_build ctx = (validate_fully_locked_build ctx).take n := by
  simp only [validate_fully_locked_build]
  split
  · simp
  · split
    · cases n with
      | zero => omega
      | succ k => simp
    · simp

/-- C7: with a positive cap `N`, `calculate` returns exactly the first
`min(N, total)` solutions of the exhaustive run, in enumeration order. -/
theorem claim_C7 (ctx : Calc) (n : Nat) (hn : 0 < n) :
    calculate ctx (some n) = (calculate ctx none).take n := by
  simp only [calculate]
  split
  · exact validate_fully_locked_take ctx n hn
  · split
    · simp
    · rw [calcLoop_capped_eq ctx n (by omega) _ 0 [] hn, calcLoop_none_eq]
      simp

theorem claim_C7_witness :
    calculate ctxW1 (some 1) = (calculate ctxW1 none).take 1 :=
  claim_C7 ctxW1 1 (by decide)

/-! ### C4: overfull mandatory slots -/

/-- A locked weapon piece (the GUI never offers the weapon for locking,
but `calculator_v2.py` explicitly supports `"Weapon"` among the locked
slots, line 209). -/
def weaponPieceW4 : LockedGear := ⟨.Weapon, true, none, none, none, none⟩

/-- Locked set for the C4 counterexample: the weapon plus all six
optional slots. -/
def piecesW4 : List LockedGear :=
  [weaponPieceW4,
   lockedPieceW .Helmet .Crit .Mastery,
   lockedPieceW .Armor .Crit .Haste,
   lockedPieceW .Gauntlets .Mastery .Haste,
   lockedPieceW .Boots .Mastery .Haste,
   lockedPieceW .BraceletL .Crit .Mastery,
   lockedPieceW .BraceletR .Crit .Mastery]

/-- Calculator state for the C4 counterexample. -/
def ctxW4 : Calc :=
  mkCalcCore .Stormblade .Iaido .l80 .l90 0 .avg [] (some piecesW4)

/-- C4 counterexample: with the weapon and all six optional slots locked,
four mandatory slots remain unlocked against a remaining-slot target of
three (`10 - 7`), yet `get_optional_slot_combinations` returns a
non-empty slot selection (all four mandatory slots, overshooting the
target) and the solve enumerates candidates — it even returns a
solution. -/
theorem claim_C4_counterexample :
    ctxW4.slots_to_fill = 3 ∧
    (availableMandatory ctxW4).length = 4 ∧
    get_optional_slot_combinations ctxW4 =
      [[Slot.Earrings, Slot.Ring, Slot.Charm, Slot.Necklace]] ∧
    (candidates ctxW4).head?.isSome = true ∧
    (calculate ctxW4 (some 1)).length = 1 :=
  ⟨by decide, by decide, by decide, rfl, rfl⟩

/-- C4 (amended): when more mandatory slots remain unlocked than the
remaining-slot target, the code clamps the optional-slot need to zero and
returns the single selection consisting of all unlocked mandatory slots
(exceeding the target) instead of an empty search space; the search space
is empty only when the clamped optional need exceeds the number of
unlocked optional slots. -/
theorem claim_C4 (ctx : Calc)
    (h : ctx.slots_to_fill < ((availableMandatory ctx).length : Int)) :
    get_optional_slot_combinations ctx = [availableMandatory ctx] := by
  simp only [get_optional_slot_combinations]
  have h1 : ctx.slots_to_fill - ((availableMandatory ctx).length : Int) < 0 := by
    omega
  rw [if_pos h1]
  have h2 : ¬((0 : Int) > ((availableOptional ctx).length : Int)) := by
    simp
  rw [if_neg h2, if_pos rfl]

theorem claim_C4_witness :
    get_optional_slot_combinations ctxW4 = [availableMandatory ctxW4] :=
  claim_C4 ctxW4 (by decide)

/-! ### Spend-map accounting -/

/-- Units recorded for a statistic in a spend dict (0 when absent). -/
def cntOf (counts : StatMap) (s : Stat) : Int :=
  (lookupStat counts s).getD 0

/-- Total units recorded for a statistic across all entries. -/
def contribOf : StatMap → Stat → Int
  | [], _ => 0
  | (t, c) :: rest, s => (if t = s then c else 0) + contribOf rest s

theorem contribOf_eq_zero (counts : StatMap) (s : Stat)
    (h : s ∉ counts.map Prod.fst) : contribOf counts s = 0 := by
  induction counts with
  | nil => rfl
  | cons e rest ih =>
    obtain ⟨t, c⟩ := e
    simp only [List.map_cons, List.mem_cons] at h
    push_neg at h
    have hts : ¬t = s := fun he => h.1 he.symm
    simp [contribOf, hts, ih h.2]

theorem contribOf_eq_cntOf (counts : StatMap) (s : Stat)
    (hnd : (counts.map Prod.fst).Nodup) : contribOf counts s = cntOf counts s := by
  induction counts with
  | nil => rfl
  | cons e rest ih =>
    obtain ⟨t, c⟩ := e
    simp only [List.map_cons, List.nodup_cons] at hnd
    by_cases hts : t = s
    · subst hts
      have hnm : contribOf rest t = 0 := contribOf_eq_zero rest t hnd.1
      simp [contribOf, cntOf, lookupStat, hnm]
    · simp [contribOf, cntOf, lookupStat, hts, ih hnd.2]

theorem applyCounts_apply (counts : StatMap) (totals : Stat → Int)
    (unit : Int) (s : Stat) :
    applyCounts totals counts unit s = totals s + contribOf counts s * unit := by
  induction counts generalizing totals with
  | nil => simp [applyCounts, contribOf]
  | cons e rest ih =>
    obtain ⟨t, c⟩ := e
    simp only [applyCounts, List.foldl_cons] at ih ⊢
    rw [ih]
    by_cases hst : s = t
    · subst hst
      simp [addStat, contribOf]
      ring
    · have hts : ¬t = s := fun he => hst he.symm
      simp [addStat, contribOf, hst, hts]

/-! ### `buildNeeded` lemmas -/

theorem buildNeeded_pos (ms : StatMap) (totals : Stat → Int) :
    ∀ e ∈ buildNeeded ms totals, 0 < e.2 := by
  intro e he
  rw [buildNeeded, List.mem_filterMap] at he
  obtain ⟨a, _, ha⟩ := he
  by_cases hlt : totals a.1 < a.2
  · rw [if_pos hlt, Option.some.injEq] at ha
    subst ha
    simpa using hlt
  · rw [if_neg hlt] at ha
    exact absurd ha (by simp)

theorem buildNeeded_keys_sublist (ms : StatMap) (totals : Stat → Int) :
    ((buildNeeded ms totals).map Prod.fst).Sublist (ms.map Prod.fst) := by
  induction ms with
  | nil => simp [buildNeeded]
  | cons e rest ih =>
    rw [buildNeeded, List.filterMap_cons]
    by_cases hlt : totals e.1 < e.2
    · rw [if_pos hlt]
      exact (ih.cons₂ e.1 : _)
    · rw [if_neg hlt]
      exact ih.cons e.1

theorem buildNeeded_keys_nodup (ms : StatMap) (totals : Stat → Int)
    (hnd : (ms.map Prod.fst).Nodup) :
    ((buildNeeded ms totals).map Prod.fst).Nodup :=
  (buildNeeded_keys_sublist ms totals).nodup hnd

theorem buildNeeded_lookup (ms : StatMap) (totals : Stat → Int) (s : Stat)
    (m : Int) (hnd : (ms.map Prod.fst).Nodup) (h : lookupStat ms s = some m) :
    lookupStat (buildNeeded ms totals) s =
      if totals s < m then some (m - totals s) else none := by
  induction ms with
  | nil => simp [lookupStat] at h
  | cons e rest ih =>
    obtain ⟨t, v⟩ := e
    simp only [List.map_cons, List.nodup_cons] at hnd
    by_cases hts : t = s
    · subst hts
      rw [lookupStat, if_pos rfl, Option.some.injEq] at h
      rw [← h]
      have hnm : lookupStat (buildNeeded rest totals) t = none := by
        rw [lookupStat_eq_none_iff]
        intro hmem
        exact hnd.1 ((buildNeeded_keys_sublist rest totals).mem hmem)
      rw [buildNeeded, List.filterMap_cons]
      by_cases hlt : totals t < v
      · rw [if_pos hlt, if_pos hlt]
        simp [lookupStat]
      · rw [if_neg hlt, if_neg hlt]
        exact hnm
    · rw [lookupStat, if_neg hts] at h
      rw [buildNeeded, List.filterMap_cons]
      by_cases hlt : totals t < v
      · rw [if_pos hlt]
        rw [lookupStat, if_neg hts]
        exact ih hnd.2 h
      · rw [if_neg hlt]
        exact ih hnd.2 h

/-! ### Sorting lemmas -/

theorem insertByDesc_perm (x : Stat × Int) (l : StatMap) :
    (insertByDesc x l).Perm (x :: l) := by
  induction l with
  | nil => exact List.Perm.refl _
  | cons y ys ih =>
    rw [insertByDesc]
    by_cases h : x.2 ≤ y.2
    · rw [if_pos h]
      exact (ih.cons y).trans (List.Perm.swap x y ys)
    · rw [if_neg h]

theorem sortDescSnd_perm (l : StatMap) : (sortDescSnd l).Perm l := by
  have key : ∀ (l acc : StatMap),
      (l.foldl (fun acc x => insertByDesc x acc) acc).Perm (acc ++ l) := by
    intro l
    induction l with
    | nil => intro acc; simp
    | cons x xs ih =>
      intro acc
      rw [List.foldl_cons]
      refine (ih (insertByDesc x acc)).trans ?_
      have h1 : (insertByDesc x acc ++ xs).Perm ((x :: acc) ++ xs) :=
        (insertByDesc_perm x acc).append_right xs
      refine h1.trans ?_
      simpa using List.perm_middle.symm
  simpa [sortDescSnd] using key l []

theorem sortedKeysDesc_perm (l : StatMap) :
    (sortedKeysDesc l).Perm (l.map Prod.fst) :=
  (sortDescSnd_perm l).map Prod.fst

theorem sortedKeysDesc_nodup (l : StatMap) (hnd : (l.map Prod.fst).Nodup) :
    (sortedKeysDesc l).Nodup :=
  (sortedKeysDesc_perm l).nodup_iff.mpr hnd

/-! ### Pool accounting (C2) -/

theorem runPhase_sum (unit : Int) :
    ∀ (order : List Stat) (st : PhaseState),
      sumValues (runPhase unit st order).counts + (runPhase unit st order).remaining =
        sumValues st.counts + st.remaining ∧
      (0 ≤ st.remaining → 0 ≤ (runPhase unit st order).remaining) := by
  intro order
  induction order with
  | nil => intro st; exact ⟨rfl, fun h => h⟩
  | cons a rest ih =>
    intro st
    simp only [runPhase, List.foldl_cons] at ih ⊢
    have hstep :
        sumValues (phaseStep unit st a).counts + (phaseStep unit st a).remaining =
          sumValues st.counts + st.remaining ∧
        (0 ≤ st.remaining → 0 ≤ (phaseStep unit st a).remaining) := by
      simp only [phaseStep]
      split
      · exact ⟨rfl, fun h => h⟩
      · rename_i d hd
        split
        · rename_i hpos
          constructor
          · simp only [sumValues_append_single]
            ring
          · intro h
            have hmin : min (Int.fdiv (d + unit - 1) unit) st.remaining ≤
                st.remaining := min_le_right _ _
            simp only
            omega
        · exact ⟨rfl, fun h => h⟩
    obtain ⟨ha, hb⟩ := hstep
    obtain ⟨hc, hd⟩ := ih (phaseStep unit st a)
    exact ⟨by rw [hc, ha], fun h => hd (hb h)⟩

/-- Spend sums of a successful allocation never exceed the pools. -/
theorem assign_sums (ctx : Calc) (totals : Stat → Int) (r : AllocResult)
    (h : assign_gems_and_reforges ctx totals = some r) :
    (0 ≤ ctx.total_gems → sumValues r.gem_counts ≤ ctx.total_gems) ∧
    (0 ≤ ctx.total_reforges → sumValues r.reforge_counts ≤ ctx.total_reforges) := by
  simp only [assign_gems_and_reforges] at h
  split at h
  · rw [Option.some.injEq] at h
    subst h
    exact ⟨fun hg => by simpa [sumValues] using hg, fun hr => by simpa [sumValues] using hr⟩
  · split at h
    · rw [Option.some.injEq] at h
      subst h
      constructor
      · intro hg
        obtain ⟨hsum, hnn⟩ := runPhase_sum ctx.gem_value
          (sortedKeysDesc (buildNeeded ctx.min_stats totals))
          ⟨buildNeeded ctx.min_stats totals, [], ctx.total_gems⟩
        simp only [sumValues_nil] at hsum
        have := hnn hg
        simp only
        omega
      · intro hr
        obtain ⟨hsum, hnn⟩ := runPhase_sum ctx.reforge_value
          (sortedKeysDesc (runPhase ctx.gem_value
            ⟨buildNeeded ctx.min_stats totals, [], ctx.total_gems⟩
            (sortedKeysDesc (buildNeeded ctx.min_stats totals))).needed)
          ⟨(runPhase ctx.gem_value
            ⟨buildNeeded ctx.min_stats totals, [], ctx.total_gems⟩
            (sortedKeysDesc (buildNeeded ctx.min_stats totals))).needed, [],
            ctx.total_reforges⟩
        simp only [sumValues_nil] at hsum
        have := hnn hr
        simp only
        omega
    · exact absurd h (by simp)

/-- The pools computed at construction: 11 minus the resources consumed
by locked pieces (11 with no locked gear). -/
theorem mkCalcCore_pools (c : CClass) (sc : Subclass) (gl : GearLevel)
    (wl : WeaponLevel) (uc : Nat) (ga : GemAssumption) (ms : StatMap)
    (locked : Option (List LockedGear)) :
    (mkCalcCore c sc gl wl uc ga ms locked).total_gems =
      11 - gemsUsed (locked.getD []) ∧
    (mkCalcCore c sc gl wl uc ga ms locked).total_reforges =
      11 - reforgesUsed (locked.getD []) := by
  cases locked with
  | none => simp [mkCalcCore, gemsUsed, reforgesUsed]
  | some pieces =>
    by_cases h : 0 < pieces.length
    · simp [mkCalcCore, h, get_available_resources]
    · have hnil : pieces = [] := List.length_eq_zero.mp (by omega)
      subst hnil
      simp [mkCalcCore, gemsUsed, reforgesUsed]

theorem gemsUsed_le_length (pieces : List LockedGear) :
    gemsUsed pieces ≤ (pieces.length : Int) := by
  simp only [gemsUsed]
  exact_mod_cast List.length_filter_le _ _

theorem reforgesUsed_le_length (pieces : List LockedGear) :
    reforgesUsed pieces ≤ (pieces.length : Int) := by
  simp only [reforgesUsed]
  exact_mod_cast List.length_filter_le _ _

/-- C2: for a calculator constructed from a locked set of at most ten
pieces (the manager's capacity invariant), every returned solution spends
at most the available pools: total gems spent ≤ 11 minus gems consumed by
locked pieces, and likewise for reforges (both 11 with no locked gear). -/
theorem claim_C2 (c : CClass) (sc : Subclass) (gl : GearLevel)
    (wl : WeaponLevel) (uc : Nat) (ga : GemAssumption) (ms : StatMap)
    (locked : Option (List LockedGear)) (cap : Option Nat) (sol : Solution)
    (hlen : (locked.getD []).length ≤ 10)
    (hsol : sol ∈ calculate (mkCalcCore c sc gl wl uc ga ms locked) cap) :
    sumValues sol.gem_counts ≤ 11 - gemsUsed (locked.getD []) ∧
    sumValues sol.reforge_counts ≤ 11 - reforgesUsed (locked.getD []) := by
  obtain ⟨r, hr, _, hg, hrf, _⟩ := solution_origin _ cap sol hsol
  obtain ⟨htg, htr⟩ := mkCalcCore_pools c sc gl wl uc ga ms locked
  have hsums := assign_sums _ _ _ hr
  have hcast : ((locked.getD []).length : Int) ≤ 10 := by exact_mod_cast hlen
  constructor
  · have h0 : 0 ≤ (mkCalcCore c sc gl wl uc ga ms locked).total_gems := by
      rw [htg]
      have := gemsUsed_le_length (locked.getD [])
      omega
    have hb := hsums.1 h0
    rw [htg] at hb
    rw [hg]
    exact hb
  · have h0 : 0 ≤ (mkCalcCore c sc gl wl uc ga ms locked).total_reforges := by
      rw [htr]
      have := reforgesUsed_le_length (locked.getD [])
      omega
    have hb := hsums.2 h0
    rw [htr] at hb
    rw [hrf]
    exact hb

/-- Witness pieces for C2: ten locked pieces, the helmet carrying a gem
and a reforge. -/
def piecesW2 : List LockedGear :=
  ⟨.Helmet, false, some .Crit, some .Mastery, some .Crit, some .Haste⟩ ::
    (MANDATORY_SLOTS ++
      [Slot.Armor, .Gauntlets, .Boots, .BraceletL, .BraceletR]).map
        (fun s => lockedPieceW s .Crit .Mastery)

theorem claim_C2_witness :
    sumValues ((calculate
        (mkCalcCore .Stormblade .Iaido .l80 .l90 0 .avg [] (some piecesW2))
        none).headI).gem_counts ≤ 11 - gemsUsed piecesW2 ∧
    sumValues ((calculate
        (mkCalcCore .Stormblade .Iaido .l80 .l90 0 .avg [] (some piecesW2))
        none).headI).reforge_counts ≤ 11 - reforgesUsed piecesW2 :=
  claim_C2 .Stormblade .Iaido .l80 .l90 0 .avg [] (some piecesW2) none _
    (by decide)
    (headI_mem_of_ne_nil _ (List.ne_nil_of_length_pos (by decide)))

/-! ### Greedy phase invariant (C9, C10) -/

/-- Invariant tying a phase state to the `needed` dict the phase started
from (`needed0`): spend entries are positive and lie inside `needed0`'s
domain, and every statistic's remaining `needed` value equals its
starting deficit minus what the phase has spent on it (absent exactly
when that difference is non-positive and something was spent). -/
structure PhaseInv (unit : Int) (needed0 : StatMap) (st : PhaseState) : Prop where
  needed_nodup : (st.needed.map Prod.fst).Nodup
  counts_nodup : (st.counts.map Prod.fst).Nodup
  counts_pos : ∀ e ∈ st.counts, 0 < e.2
  counts_dom : ∀ s, lookupStat needed0 s = none → lookupStat st.counts s = none
  needed_dom : ∀ s, lookupStat needed0 s = none → lookupStat st.needed s = none
  track : ∀ s d, lookupStat needed0 s = some d →
      (lookupStat st.needed s = some (d - cntOf st.counts s * unit) ∧
        0 < d - cntOf st.counts s * unit) ∨
      (lookupStat st.needed s = none ∧ d - cntOf st.counts s * unit ≤ 0 ∧
        0 < cntOf st.counts s)

theorem phaseStep_inv (unit : Int) (needed0 : StatMap) (st : PhaseState)
    (stat : Stat) (inv : PhaseInv unit needed0 st)
    (hfresh : lookupStat st.counts stat = none) :
    PhaseInv unit needed0 (phaseStep unit st stat) ∧
    ∀ t, t ≠ stat →
      lookupStat (phaseStep unit st stat).counts t = lookupStat st.counts t := by
  simp only [phaseStep]
  split
  · exact ⟨inv, fun _ _ => rfl⟩
  · rename_i d hl
    split
    · rename_i hpos
      set tu := min (Int.fdiv (d + unit - 1) unit) st.remaining with htu
      -- the processed statistic is in the starting domain with deficit `d`
      have hcnt0 : cntOf st.counts stat = 0 := by simp [cntOf, hfresh]
      have hd0 : lookupStat needed0 stat = some d := by
        cases hn0 : lookupStat needed0 stat with
        | none => exact absurd hl (by rw [inv.needed_dom stat hn0]; simp)
        | some d0 =>
          rcases inv.track stat d0 hn0 with ⟨h1, _⟩ | ⟨h1, _, h3⟩
          · rw [hcnt0] at h1
            simp only [zero_mul, sub_zero] at h1
            rw [hl] at h1
            rw [Option.some.injEq] at h1
            rw [h1]
          · rw [hcnt0] at h3
            exact absurd h3 (by norm_num)
      -- counts lookups in the appended spend dict
      have hstatkeys : stat ∉ st.counts.map Prod.fst :=
        (lookupStat_eq_none_iff _ _).mp hfresh
      have hc_self : lookupStat (st.counts ++ [(stat, tu)]) stat = some tu := by
        rw [lookupStat_append, hfresh]
        simp [lookupStat]
      have hc_other : ∀ t, t ≠ stat →
          lookupStat (st.counts ++ [(stat, tu)]) t = lookupStat st.counts t := by
        intro t ht
        rw [lookupStat_append]
        cases hct : lookupStat st.counts t with
        | some v => rfl
        | none => simp [lookupStat, (Ne.symm ht : stat ≠ t)]
      have hcnod : ((st.counts ++ [(stat, tu)]).map Prod.fst).Nodup := by
        rw [List.map_append, List.nodup_append]
        refine ⟨inv.counts_nodup, by simp, ?_⟩
        intro a ha hb
        simp only [List.map_cons, List.map_nil, List.mem_singleton] at hb
        subst hb
        exact hstatkeys ha
      have hcpos : ∀ e ∈ st.counts ++ [(stat, tu)], 0 < e.2 := by
        intro e he
        rcases List.mem_append.mp he with he | he
        · exact inv.counts_pos e he
        · rw [List.mem_singleton] at he
          subst he
          exact hpos
      have hcdom : ∀ s, lookupStat needed0 s = none →
          lookupStat (st.counts ++ [(stat, tu)]) s = none := by
        intro s hn
        have hss : s ≠ stat := fun he => by rw [he, hd0] at hn; exact absurd hn (by simp)
        rw [hc_other s hss]
        exact inv.counts_dom s hn
      have hcnt_self : cntOf (st.counts ++ [(stat, tu)]) stat = tu := by
        simp [cntOf, hc_self]
      have hcnt_other : ∀ t, t ≠ stat →
          cntOf (st.counts ++ [(stat, tu)]) t = cntOf st.counts t := by
        intro t ht
        simp [cntOf, hc_other t ht]
      by_cases herase : d - tu * unit ≤ 0
      · rw [if_pos herase]
        refine ⟨⟨eraseStat_keys_nodup _ _ inv.needed_nodup, hcnod, hcpos, hcdom,
            ?_, ?_⟩, fun t ht => hc_other t ht⟩
        · intro s hn
          have hss : s ≠ stat := fun he => by rw [he, hd0] at hn; exact absurd hn (by simp)
          rw [lookupStat_eraseStat_ne _ _ _ hss]
          exact inv.needed_dom s hn
        · intro s d1 hn1
          by_cases hss : s = stat
          · subst hss
            rw [hd0, Option.some.injEq] at hn1
            subst hn1
            refine Or.inr ⟨lookupStat_eraseStat_self _ _ inv.needed_nodup, ?_, ?_⟩
            · rw [hcnt_self]
              exact herase
            · rw [hcnt_self]
              exact hpos
          · rw [lookupStat_eraseStat_ne _ _ _ hss, hcnt_other s hss]
            exact inv.track s d1 hn1
      · rw [if_neg herase]
        refine ⟨⟨setStat_keys_nodup _ _ _ inv.needed_nodup, hcnod, hcpos, hcdom,
            ?_, ?_⟩, fun t ht => hc_other t ht⟩
        · intro s hn
          have hss : s ≠ stat := fun he => by rw [he, hd0] at hn; exact absurd hn (by simp)
          rw [lookupStat_setStat_ne _ _ _ _ hss]
          exact inv.needed_dom s hn
        · intro s d1 hn1
          by_cases hss : s = stat
          · subst hss
            rw [hd0, Option.some.injEq] at hn1
            subst hn1
            refine Or.inl ⟨?_, ?_⟩
            · rw [hcnt_self]
              exact lookupStat_setStat_self _ _ _
            · rw [hcnt_self]
              exact lt_of_not_le herase
          · rw [lookupStat_setStat_ne _ _ _ _ hss, hcnt_other s hss]
            exact inv.track s d1 hn1
    · exact ⟨inv, fun _ _ => rfl⟩

theorem runPhase_inv (unit : Int) (needed0 : StatMap) :
    ∀ (order : List Stat) (st : PhaseState),
      PhaseInv unit needed0 st → order.Nodup →
      (∀ s ∈ order, lookupStat st.counts s = none) →
      PhaseInv unit needed0 (runPhase unit st order) := by
  intro order
  induction order with
  | nil => intro st inv _ _; exact inv
  | cons a rest ih =>
    intro st inv hnd hfresh
    simp only [runPhase, List.foldl_cons] at ih ⊢
    obtain ⟨inv', hpres⟩ :=
      phaseStep_inv unit needed0 st a inv (hfresh a (List.mem_cons_self _ _))
    refine ih (phaseStep unit st a) inv' (List.nodup_cons.mp hnd).2 ?_
    intro s hs
    have hne : s ≠ a := fun he => (List.nodup_cons.mp hnd).1 (he ▸ hs)
    rw [hpres s hne]
    exact hfresh s (List.mem_cons_of_mem _ hs)

theorem phaseInv_init (unit : Int) (needed0 : StatMap) (R : Int)
    (hnd : (needed0.map Prod.fst).Nodup)
    (hpos : ∀ e ∈ needed0, 0 < e.2) :
    PhaseInv unit needed0 ⟨needed0, [], R⟩ := by
  refine ⟨hnd, by simp, by simp, fun s h => rfl, fun s h => h, ?_⟩
  intro s d h
  refine Or.inl ⟨?_, ?_⟩
  · simpa [cntOf, lookupStat] using h
  · have := hpos (s, d) (mem_of_lookupStat _ _ _ h)
    simpa [cntOf, lookupStat] using this

/-- All remaining `needed` values stay strictly positive. -/
theorem PhaseInv.needed_pos {unit : Int} {needed0 : StatMap} {st : PhaseState}
    (inv : PhaseInv unit needed0 st) : ∀ e ∈ st.needed, 0 < e.2 := by
  intro e he
  have hl : lookupStat st.needed e.1 = some e.2 :=
    lookupStat_of_mem _ _ _ inv.needed_nodup (by
      obtain ⟨a, b⟩ := e
      exact he)
  cases hn0 : lookupStat needed0 e.1 with
  | none => exact absurd hl (by rw [inv.needed_dom e.1 hn0]; simp)
  | some d =>
    rcases inv.track e.1 d hn0 with ⟨h1, h2⟩ | ⟨h1, _, _⟩
    · rw [hl, Option.some.injEq] at h1
      rw [h1]
      exact h2
    · exact absurd hl (by rw [h1]; simp)

/-- The state after the gem phase (`st1` of `assign_gems_and_reforges`). -/
def gemPhaseState (ctx : Calc) (totals : Stat → Int) : PhaseState :=
  runPhase ctx.gem_value
    ⟨buildNeeded ctx.min_stats totals, [], ctx.total_gems⟩
    (sortedKeysDesc (buildNeeded ctx.min_stats totals))

/-- The state after the reforge phase (`st2` of `assign_gems_and_reforges`). -/
def reforgePhaseState (ctx : Calc) (totals : Stat → Int) : PhaseState :=
  runPhase ctx.reforge_value
    ⟨(gemPhaseState ctx totals).needed, [], ctx.total_reforges⟩
    (sortedKeysDesc (gemPhaseState ctx totals).needed)

/-- Inversion of a successful `assign_gems_and_reforges` run: either the
degenerate accept-immediately path, or the two-phase path with an emptied
`needed` dict. -/
theorem assign_some_inversion (ctx : Calc) (totals : Stat → Int)
    (r : AllocResult) (h : assign_gems_and_reforges ctx totals = some r) :
    (buildNeeded ctx.min_stats totals = [] ∧ r.gem_counts = [] ∧
      r.reforge_counts = [] ∧ r.final_totals = totals ∧
      r.meets_requirements = true) ∨
    ((reforgePhaseState ctx totals).needed = [] ∧
      r.gem_counts = (gemPhaseState ctx totals).counts ∧
      r.reforge_counts = (reforgePhaseState ctx totals).counts ∧
      r.final_totals =
        applyCounts (applyCounts totals (gemPhaseState ctx totals).counts
          ctx.gem_value) (reforgePhaseState ctx totals).counts
          ctx.reforge_value ∧
      r.meets_requirements =
        ctx.min_stats.all (fun e => decide (e.2 ≤ r.final_totals e.1))) := by
  simp only [assign_gems_and_reforges] at h
  split at h
  · rename_i hempty
    rw [Option.some.injEq] at h
    subst h
    exact Or.inl ⟨List.isEmpty_iff.mp hempty, rfl, rfl, rfl, rfl⟩
  · split at h
    · rename_i hempty2
      rw [Option.some.injEq] at h
      subst h
      exact Or.inr ⟨List.isEmpty_iff.mp hempty2, rfl, rfl, rfl, rfl⟩
    · exact absurd h (by simp)

/-- Both phase invariants hold for the states of a two-phase run. -/
theorem assign_invariants (ctx : Calc) (totals : Stat → Int)
    (hnd : (ctx.min_stats.map Prod.fst).Nodup) :
    PhaseInv ctx.gem_value (buildNeeded ctx.min_stats totals)
      (gemPhaseState ctx totals) ∧
    PhaseInv ctx.reforge_value (gemPhaseState ctx totals).needed
      (reforgePhaseState ctx totals) := by
  have hnd0 : ((buildNeeded ctx.min_stats totals).map Prod.fst).Nodup :=
    buildNeeded_keys_nodup _ _ hnd
  have hpos0 := buildNeeded_pos ctx.min_stats totals
  have inv1 : PhaseInv ctx.gem_value (buildNeeded ctx.min_stats totals)
      (gemPhaseState ctx totals) := by
    apply runPhase_inv
    · exact phaseInv_init _ _ _ hnd0 hpos0
    · exact sortedKeysDesc_nodup _ hnd0
    · intro s _
      rfl
  refine ⟨inv1, ?_⟩
  apply runPhase_inv
  · exact phaseInv_init _ _ _ inv1.needed_nodup inv1.needed_pos
  · exact sortedKeysDesc_nodup _ inv1.needed_nodup
  · intro s _
    rfl

/-- C9: whenever `assign_gems_and_reforges` returns a result tuple, its
meets-requirements component is true, so the extra flag check in
`calculate` never rejects an allocator-accepted candidate. -/
theorem claim_C9 (ctx : Calc) (totals : Stat → Int) (r : AllocResult)
    (hnd : (ctx.min_stats.map Prod.fst).Nodup)
    (h : assign_gems_and_reforges ctx totals = some r) :
    r.meets_requirements = true := by
  rcases assign_some_inversion ctx totals r h with
    ⟨_, _, _, _, hm⟩ | ⟨hnd2, hg, hrf, hft, hm⟩
  · exact hm
  · rw [hm, List.all_eq_true]
    intro e he
    rw [decide_eq_true_eq]
    obtain ⟨inv1, inv2⟩ := assign_invariants ctx totals hnd
    have hfinal : r.final_totals e.1 =
        totals e.1 + cntOf (gemPhaseState ctx totals).counts e.1 * ctx.gem_value +
          cntOf (reforgePhaseState ctx totals).counts e.1 * ctx.reforge_value := by
      rw [hft, applyCounts_apply, applyCounts_apply,
          contribOf_eq_cntOf _ _ inv1.counts_nodup,
          contribOf_eq_cntOf _ _ inv2.counts_nodup]
    rw [hfinal]
    have hml : lookupStat ctx.min_stats e.1 = some e.2 :=
      lookupStat_of_mem _ _ _ hnd (by obtain ⟨a, b⟩ := e; exact he)
    have hbl := buildNeeded_lookup ctx.min_stats totals e.1 e.2 hnd hml
    by_cases hlt : totals e.1 < e.2
    · rw [if_pos hlt] at hbl
      rcases inv1.track e.1 (e.2 - totals e.1) hbl with ⟨h1, _⟩ | ⟨h1, h2, _⟩
      · rcases inv2.track e.1 _ h1 with ⟨h4, _⟩ | ⟨_, h5, _⟩
        · rw [hnd2] at h4
          exact absurd h4 (by simp [lookupStat])
        · linarith
      · have hcr : cntOf (reforgePhaseState ctx totals).counts e.1 = 0 := by
          have := inv2.counts_dom e.1 h1
          simp [cntOf, this]
        rw [hcr]
        linarith
    · rw [if_neg hlt] at hbl
      have hcg : cntOf (gemPhaseState ctx totals).counts e.1 = 0 := by
        have := inv1.counts_dom e.1 hbl
        simp [cntOf, this]
      have hcr : cntOf (reforgePhaseState ctx totals).counts e.1 = 0 := by
        have := inv2.counts_dom e.1 (inv1.needed_dom e.1 hbl)
        simp [cntOf, this]
      rw [hcg, hcr]
      push_neg at hlt
      linarith

/-- Calculator state for the C9 witness. -/
def ctxW9 : Calc :=
  mkCalcCore .Stormblade .Iaido .l80 .l90 6 .avg [(Stat.Crit, 500)] none

/-- The allocator result of the C9 witness run. -/
def allocW9 : AllocResult :=
  (assign_gems_and_reforges ctxW9 (fun _ => 0)).getD default

theorem claim_C9_witness : allocW9.meets_requirements = true :=
  claim_C9 ctxW9 (fun _ => 0) allocW9 (by decide) rfl

/-- C10: every entry of the gem and reforge spend maps has a strictly
positive count and keys only statistics that carried a strictly positive
deficit when the respective phase processed them (gem phase: the initial
`needed` dict; reforge phase: the `needed` dict left by the gem phase);
statistics with no deficit appear in neither spend map. -/
theorem claim_C10 (ctx : Calc) (totals : Stat → Int) (r : AllocResult)
    (hnd : (ctx.min_stats.map Prod.fst).Nodup)
    (h : assign_gems_and_reforges ctx totals = some r) :
    (∀ e ∈ r.gem_counts, 0 < e.2 ∧
      ∃ d, lookupStat (buildNeeded ctx.min_stats totals) e.1 = some d ∧ 0 < d) ∧
    (∀ e ∈ r.reforge_counts, 0 < e.2 ∧
      ∃ d, lookupStat (gemPhaseState ctx totals).needed e.1 = some d ∧ 0 < d) ∧
    (∀ s, lookupStat (buildNeeded ctx.min_stats totals) s = none →
      lookupStat r.gem_counts s = none ∧ lookupStat r.reforge_counts s = none) := by
  rcases assign_some_inversion ctx totals r h with
    ⟨_, hg, hrf, _, _⟩ | ⟨_, hg, hrf, _, _⟩
  · refine ⟨?_, ?_, ?_⟩ <;> simp [hg, hrf, lookupStat]
  · obtain ⟨inv1, inv2⟩ := assign_invariants ctx totals hnd
    refine ⟨?_, ?_, ?_⟩
    · intro e he
      rw [hg] at he
      refine ⟨inv1.counts_pos e he, ?_⟩
      have hl : lookupStat (gemPhaseState ctx totals).counts e.1 = some e.2 :=
        lookupStat_of_mem _ _ _ inv1.counts_nodup (by obtain ⟨a, b⟩ := e; exact he)
      cases hn0 : lookupStat (buildNeeded ctx.min_stats totals) e.1 with
      | none => exact absurd hl (by rw [inv1.counts_dom e.1 hn0]; simp)
      | some d =>
        refine ⟨d, rfl, ?_⟩
        have := buildNeeded_pos ctx.min_stats totals (e.1, d)
          (mem_of_lookupStat _ _ _ hn0)
        simpa using this
    · intro e he
      rw [hrf] at he
      refine ⟨inv2.counts_pos e he, ?_⟩
      have hl : lookupStat (reforgePhaseState ctx totals).counts e.1 = some e.2 :=
        lookupStat_of_mem _ _ _ inv2.counts_nodup (by obtain ⟨a, b⟩ := e; exact he)
      cases hn1 : lookupStat (gemPhaseState ctx totals).needed e.1 with
      | none => exact absurd hl (by rw [inv2.counts_dom e.1 hn1]; simp)
      | some d =>
        refine ⟨d, rfl, ?_⟩
        have := inv1.needed_pos (e.1, d) (mem_of_lookupStat _ _ _ hn1)
        simpa using this
    · intro s hn
      constructor
      · rw [hg]
        exact inv1.counts_dom s hn
      · rw [hrf]
        exact inv2.counts_dom s (inv1.needed_dom s hn)

/-- Calculator state for the C10 witness. -/
def ctxW10 : Calc :=
  mkCalcCore .Stormblade .Iaido .l80 .l90 6 .avg [(Stat.Crit, 500)] none

/-- The allocator result of the C10 witness run. -/
def allocW10 : AllocResult :=
  (assign_gems_and_reforges ctxW10 (fun _ => 0)).getD default

theorem claim_C10_witness :
    lookupStat allocW10.gem_counts Stat.Haste = none ∧
    lookupStat allocW10.reforge_counts Stat.Haste = none :=
  (claim_C10 ctxW10 (fun _ => 0) allocW10 (by decide) rfl).2.2 Stat.Haste (by decide)

/-! ### C5: the tier-80 / weapon-90 / six-unique scenario -/

/-- Scenario B configuration as the spec states it (threshold 2000 on a
unique-pair statistic, here Stormblade/Moonstrike with the pair
(Luck, Haste)). -/
def ctxB5 : Calc :=
  mkCalcCore .Stormblade .Moonstrike .l80 .l90 6 .avg [(Stat.Luck, 2000)] none

/-- C5 counterexample: the per-statistic unique+weapon contribution to S1
is 200·6 + 384 = 1584 < 2000 (the spec's 3168 double-counts the pair), so
a candidate whose regular slots avoid S1 closes the gap with gems.  The
very first solution of this solve spends 7 gems on S1 = Luck. -/
theorem claim_C5_counterexample :
    ¬(∀ sol ∈ calculate ctxB5 (some 1),
        lookupStat sol.gem_counts Stat.Luck = none ∧
        lookupStat sol.reforge_counts Stat.Luck = none) := by
  intro hall
  have hlen : (calculate ctxB5 (some 1)).length = 1 := rfl
  have hne : calculate ctxB5 (some 1) ≠ [] :=
    List.ne_nil_of_length_pos (by rw [hlen]; norm_num)
  have h1 := (hall _ (headI_mem_of_ne_nil _ hne)).1
  have h2 : lookupStat ((calculate ctxB5 (some 1)).headI).gem_counts Stat.Luck =
      some 7 := rfl
  rw [h1] at h2
  exact absurd h2 (by simp)

/-- Every assignment yielded by `enumerate_gear_stats` pairs the slots in
order, and gives every unique slot the fixed unique pair. -/
theorem enumerate_gear_stats_shape (ctx : Calc) :
    ∀ (slots unique_slots : List Slot) (ga : GearAssignment),
      ga ∈ enumerate_gear_stats ctx slots unique_slots →
      List.Forall₂ (fun (sl : Slot) (p : Slot × GearEntry) =>
        p.1 = sl ∧ (sl ∈ unique_slots →
          p.2 = (ctx.unique_stats.1, ctx.unique_stats.2, true))) slots ga := by
  intro slots
  induction slots with
  | nil =>
    intro us ga h
    simp only [enumerate_gear_stats, List.mem_singleton] at h
    subst h
    exact List.Forall₂.nil
  | cons slot rest ih =>
    intro us ga h
    simp only [enumerate_gear_stats] at h
    by_cases hu : slot ∈ us
    · rw [if_pos hu] at h
      rw [List.mem_map] at h
      obtain ⟨t, ht, rfl⟩ := h
      exact List.Forall₂.cons ⟨rfl, fun _ => rfl⟩ (ih us t ht)
    · rw [if_neg hu] at h
      rw [List.mem_flatMap] at h
      obtain ⟨p, _, h2⟩ := h
      rw [List.mem_map] at h2
      obtain ⟨t, ht, rfl⟩ := h2
      exact List.Forall₂.cons ⟨rfl, fun hmem => absurd hmem hu⟩ (ih us t ht)

theorem addStat_le (f : Stat → Int) (s : Stat) (v : Int) (t : Stat)
    (hv : 0 ≤ v) : f t ≤ addStat f s v t := by
  simp only [addStat]
  split <;> omega

/-- Every gear entry only increases a statistic (non-negative values). -/
theorem gearEntryAdd_le (ctx : Calc) (f : Stat → Int) (e : Slot × GearEntry)
    (t : Stat) (hp : 0 ≤ ctx.primary_value) (hs : 0 ≤ ctx.secondary_value) :
    f t ≤ gearEntryAdd ctx f e t := by
  obtain ⟨sl, s1, s2, b⟩ := e
  cases b with
  | true =>
    simp only [gearEntryAdd]
    exact (addStat_le f s1 _ t hp).trans (addStat_le _ s2 _ t hp)
  | false =>
    simp only [gearEntryAdd]
    exact (addStat_le f s1 _ t hp).trans (addStat_le _ s2 _ t hs)

/-- A unique entry raises a unique-pair statistic by at least the primary
value. -/
theorem gearEntryAdd_unique_bump (ctx : Calc) (f : Stat → Int)
    (e : Slot × GearEntry) (t : Stat)
    (he : e.2 = (ctx.unique_stats.1, ctx.unique_stats.2, true))
    (ht : t = ctx.unique_stats.1 ∨ t = ctx.unique_stats.2)
    (hp : 0 ≤ ctx.primary_value) :
    f t + ctx.primary_value ≤ gearEntryAdd ctx f e t := by
  obtain ⟨sl, p⟩ := e
  simp only at he
  subst he
  simp only [gearEntryAdd]
  rcases ht with ht | ht
  · have h1 : addStat f ctx.unique_stats.1 ctx.primary_value t =
        f t + ctx.primary_value := by
      simp [addStat, ht]
    calc f t + ctx.primary_value = addStat f ctx.unique_stats.1 ctx.primary_value t :=
          h1.symm
      _ ≤ _ := addStat_le _ ctx.unique_stats.2 _ t hp
  · have h1 : f t ≤ addStat f ctx.unique_stats.1 ctx.primary_value t :=
      addStat_le _ _ _ _ hp
    have h2 : addStat (addStat f ctx.unique_stats.1 ctx.primary_value)
        ctx.unique_stats.2 ctx.primary_value t =
        addStat f ctx.unique_stats.1 ctx.primary_value t + ctx.primary_value := by
      simp [addStat, ht]
    show f t + ctx.primary_value ≤
      addStat (addStat f ctx.unique_stats.1 ctx.primary_value)
        ctx.unique_stats.2 ctx.primary_value t
    omega

/-- Folding a shaped assignment raises a unique-pair statistic by at
least the primary value once per unique slot. -/
theorem foldl_gear_bound (ctx : Calc) (hp : 0 ≤ ctx.primary_value)
    (hs : 0 ≤ ctx.secondary_value) (t : Stat)
    (ht : t = ctx.unique_stats.1 ∨ t = ctx.unique_stats.2) :
    ∀ (slots us : List Slot) (ga : GearAssignment) (base : Stat → Int),
      List.Forall₂ (fun (sl : Slot) (p : Slot × GearEntry) =>
        p.1 = sl ∧ (sl ∈ us →
          p.2 = (ctx.unique_stats.1, ctx.unique_stats.2, true))) slots ga →
      base t + ctx.primary_value *
          ((slots.filter (fun s => s ∈ us)).length : Int) ≤
        ga.foldl (gearEntryAdd ctx) base t := by
  intro slots
  induction slots with
  | nil =>
    intro us ga base hf
    cases hf
    simp
  | cons sl rest ih =>
    intro us ga base hf
    cases hf with
    | cons hhead htail =>
      rename_i p ga'
      obtain ⟨hp1, hp2⟩ := hhead
      rw [List.foldl_cons]
      by_cases hu : sl ∈ us
      · have hstep : base t + ctx.primary_value ≤ gearEntryAdd ctx base p t :=
          gearEntryAdd_unique_bump ctx base p t (hp2 hu) ht hp
        have hrest := ih us ga' (gearEntryAdd ctx base p) htail
        have hlen : ((sl :: rest).filter (fun s => s ∈ us)).length =
            (rest.filter (fun s => s ∈ us)).length + 1 := by
          simp [hu]
        rw [hlen]
        push_cast
        nlinarith [hrest, hstep]
      · have hstep : base t ≤ gearEntryAdd ctx base p t :=
          gearEntryAdd_le ctx base p t hp hs
        have hrest := ih us ga' (gearEntryAdd ctx base p) htail
        have hlen : ((sl :: rest).filter (fun s => s ∈ us)).length =
            (rest.filter (fun s => s ∈ us)).length := by
          simp [hu]
        rw [hlen]
        omega

/-- In the amended scenario configuration (tier 80, weapon 90, six unique
pieces, no locked gear), every enumerated candidate's gear totals give a
unique-pair statistic at least 200·6 + 384 = 1584. -/
theorem c5_totals_ge (c : CClass) (sc : Subclass) (ga : GemAssumption)
    (ms : StatMap) (s1 : Stat)
    (hs1 : s1 = (SUBCLASS_UNIQUE_STATS sc).1 ∨ s1 = (SUBCLASS_UNIQUE_STATS sc).2)
    (gear : GearAssignment)
    (hga : gear ∈ enumerate_gear_stats
      (mkCalcCore c sc .l80 .l90 6 ga ms none) ALL_GEAR_SLOTS OPTIONAL_SLOTS) :
    (1584 : Int) ≤
      calculate_gear_totals (mkCalcCore c sc .l80 .l90 6 ga ms none) gear s1 := by
  set ctx := mkCalcCore c sc .l80 .l90 6 ga ms none with hctxdef
  have hshape := enumerate_gear_stats_shape ctx ALL_GEAR_SLOTS OPTIONAL_SLOTS gear hga
  have hs1' : s1 = ctx.unique_stats.1 ∨ s1 = ctx.unique_stats.2 := hs1
  have hw : Slot.Weapon ∉ ctx.locked_slots := by
    show Slot.Weapon ∉ ([] : List Slot)
    simp
  simp only [calculate_gear_totals]
  rw [if_neg hw]
  refine le_trans ?_ (foldl_gear_bound ctx
    (show (0 : Int) ≤ ctx.primary_value from by norm_num [show ctx.primary_value = 200 from rfl])
    (show (0 : Int) ≤ ctx.secondary_value from by norm_num [show ctx.secondary_value = 100 from rfl])
    s1 hs1' ALL_GEAR_SLOTS OPTIONAL_SLOTS gear _ hshape)
  have h6 : ctx.primary_value *
      (((ALL_GEAR_SLOTS.filter (fun s => s ∈ OPTIONAL_SLOTS)).length : Nat) : Int) =
      1200 := rfl
  rw [h6]
  have hbase : (384 : Int) ≤ addStat (addStat (fun s => 0 + ctx.locked_stats s)
      ctx.unique_stats.1 ctx.weapon_stat_value) ctx.unique_stats.2
      ctx.weapon_stat_value s1 := by
    have hz : (0 : Int) + ctx.locked_stats s1 = 0 := rfl
    have hwv : ctx.weapon_stat_value = 384 := rfl
    simp only [addStat, hwv]
    rcases hs1' with h | h
    · by_cases h2 : s1 = ctx.unique_stats.2
      · rw [if_pos h2, if_pos h, hz]
        norm_num
      · rw [if_neg h2, if_pos h, hz]
        norm_num
    · rw [if_pos h]
      by_cases h2 : s1 = ctx.unique_stats.1
      · rw [if_pos h2, hz]
        norm_num
      · rw [if_neg h2, hz]
        norm_num
  linarith

/-- With no locked slots and ten slots to fill, slot selection yields the
single full ten-slot combination. -/
theorem get_optional_no_locked (ctx : Calc) (h1 : ctx.locked_slots = [])
    (h2 : ctx.slots_to_fill = 10) :
    get_optional_slot_combinations ctx = [ALL_GEAR_SLOTS] := by
  simp only [get_optional_slot_combinations, availableOptional,
    availableMandatory, h1, h2]
  decide

/-- With a unique count of six, the only unique placement on the full
ten-slot combination is the six optional slots. -/
theorem get_unique_six (ctx : Calc) (h : ctx.unique_count = 6) :
    get_unique_slot_assignments ctx ALL_GEAR_SLOTS = [OPTIONAL_SLOTS] := by
  simp only [get_unique_slot_assignments, h]
  decide

/-- C5 (amended): the per-statistic unique+weapon contribution to a
unique-pair statistic S1 is 200·6 + 384 = 1584 (not the spec's 3168), so
with any threshold on S1 of at most that — here {S1: 1500} — every
returned solution spends zero gems and zero reforges on S1 (S1 absent
from both spend maps). -/
theorem claim_C5 (c : CClass) (sc : Subclass) (ga : GemAssumption)
    (cap : Option Nat) (s1 : Stat)
    (hs1 : s1 = (SUBCLASS_UNIQUE_STATS sc).1 ∨ s1 = (SUBCLASS_UNIQUE_STATS sc).2)
    (ctx : Calc)
    (hctx : mkCalculator c sc .l80 .l90 6 ga [(s1, 1500)] none = some ctx)
    (sol : Solution) (hsol : sol ∈ calculate ctx cap) :
    lookupStat sol.gem_counts s1 = none ∧
    lookupStat sol.reforge_counts s1 = none := by
  by_cases hv : validate_class_subclass c sc = true
  · rw [mkCalculator, if_pos hv, Option.some.injEq] at hctx
    subst hctx
    set ctx5 := mkCalcCore c sc .l80 .l90 6 ga [(s1, 1500)] none with hctxdef
    have hnl : ¬(ctx5.has_locked_gear = true ∧ 10 ≤ ctx5.locked_slots.length) := by
      rintro ⟨hcon, _⟩
      rw [show ctx5.has_locked_gear = false from rfl] at hcon
      exact absurd hcon (by simp)
    obtain ⟨cand, hcand, htry⟩ := solution_origin_candidate ctx5 cap sol hnl hsol
    have hcands : candidates ctx5 =
        (enumerate_gear_stats ctx5 ALL_GEAR_SLOTS OPTIONAL_SLOTS).map
          (fun g => (ALL_GEAR_SLOTS, OPTIONAL_SLOTS, g)) := by
      have h1 : get_optional_slot_combinations ctx5 = [ALL_GEAR_SLOTS] :=
        get_optional_no_locked ctx5 rfl rfl
      have h2 : get_unique_slot_assignments ctx5 ALL_GEAR_SLOTS =
          [OPTIONAL_SLOTS] := get_unique_six ctx5 rfl
      simp [candidates, h1, h2]
    rw [hcands, List.mem_map] at hcand
    obtain ⟨g, hgmem, rfl⟩ := hcand
    have hge : (1584 : Int) ≤ calculate_gear_totals ctx5 g s1 := by
      rw [hctxdef]
      exact c5_totals_ge c sc ga [(s1, 1500)] s1 hs1 g (by rw [← hctxdef]; exact hgmem)
    have hbn : buildNeeded ctx5.min_stats (calculate_gear_totals ctx5 g) = [] := by
      rw [show ctx5.min_stats = [(s1, 1500)] from rfl, buildNeeded,
        List.filterMap_cons]
      rw [if_neg (by simp only; omega)]
      rfl
    have hassign : assign_gems_and_reforges ctx5 (calculate_gear_totals ctx5 g) =
        some ⟨[], [], calculate_gear_totals ctx5 g, true⟩ := by
      simp [assign_gems_and_reforges, hbn]
    have hstep : tryCandidate ctx5 (ALL_GEAR_SLOTS, OPTIONAL_SLOTS, g) =
        some { slots := ctx5.locked_slots ++ ALL_GEAR_SLOTS
               unique_slots := OPTIONAL_SLOTS
               gear_assignment := g
               gem_counts := []
               reforge_counts := []
               final_totals := calculate_gear_totals ctx5 g
               gear_totals := calculate_gear_totals ctx5 g
               has_locked_gear := ctx5.has_locked_gear
               fully_locked := false } := by
      simp only [tryCandidate]
      rw [hassign]
      rfl
    rw [hstep, Option.some.injEq] at htry
    subst htry
    exact ⟨rfl, rfl⟩
  · rw [mkCalculator, if_neg hv] at hctx
    exact absurd hctx (by simp)

theorem claim_C5_witness :
    lookupStat ((calculate (mkCalcCore .Stormblade .Moonstrike .l80 .l90 6 .avg
        [(Stat.Luck, 1500)] none) (some 1)).headI).gem_counts Stat.Luck = none ∧
    lookupStat ((calculate (mkCalcCore .Stormblade .Moonstrike .l80 .l90 6 .avg
        [(Stat.Luck, 1500)] none) (some 1)).headI).reforge_counts Stat.Luck = none :=
  claim_C5 .Stormblade .Moonstrike .avg (some 1) Stat.Luck (Or.inl rfl) _ rfl _
    (headI_mem_of_ne_nil _ (List.ne_nil_of_length_pos (by decide)))
